import Mathlib

/-!
# Cadet Engine: asynchronous file pipeline (`src/src/fs.c`)

A shallow embedding of the file-system job pipeline: the work item, the two
submission functions, the file worker's `file_read` / `file_write`, the
compression worker's `file_compress` / `file_decompress`, and the result
getters.

Modelling conventions

* `size_t` is 64 bits, `DWORD` and `int` are 32 bits (Win64); every cast of the
  source is an explicit wrap.
* A memory block is a `List Nat` of bytes whose length is the allocation size;
  `NULL` is `none`.  An access outside the block is undefined behaviour and
  makes the function return `none`.
* `heap_alloc` serves every request of at most `2^63` bytes with a block of
  indeterminate contents, given by `Env.junk`, and no larger one; none of its
  callers in `fs.c` tests the pointer it returns.
* A path is a `String`; its length in the `char` arrays of the source is its
  number of UTF-8 bytes.  `strcpy_s` into an array that cannot hold the string
  and its terminator calls the CRT's invalid-parameter handler, which ends the
  process: the function never returns (`none`).
* Every function returns the updated work item and the list of externally
  visible effects it performed, in program order.
* A blocking hand-off (`queue_push` onto the compression queue followed by
  `event_wait (com_done)`) is sequentialised: the compression worker handles
  the item (`file_compress_func_step`) between the push and the wait.  A wait
  on a signal that nobody raises never returns, which is `none`.
* The operating system and the codec are parameters: `ReadOs`, `WriteOs`
  give the outcome of each Win32 call, `Env` gives the two LZ4 entry points.

The locking of the allocator (`src/src/heap.c`) and the trace recorder
(`src/src/trace.c`), which writes its capture through this pipeline, have
sections of their own.
-/

namespace CadetEngine

/-! ## Machine integers -/

/-- Conversion to `size_t` (unsigned 64-bit wrap). -/
def size_t (x : Int) : Nat := (x % 2 ^ 64).toNat

/-- Conversion to `DWORD` (unsigned 32-bit wrap). -/
def DWORD (n : Nat) : Nat := n % 2 ^ 32

/-- Conversion to `int` (signed 32-bit wrap). -/
def to_int (x : Int) : Int :=
  if (x % 2 ^ 32).toNat < 2 ^ 31 then x % 2 ^ 32 else x % 2 ^ 32 - 2 ^ 32

/-- The four bytes of an `int` in memory (little-endian, as on x86-64). -/
def store_int (v : Int) : List Nat :=
  let u := (v % 2 ^ 32).toNat
  [u % 256, u / 256 % 256, u / 65536 % 256, u / 16777216 % 256]

/-- The `int` held by four bytes of memory (little-endian). -/
def load_int (bytes : List Nat) : Int :=
  match bytes with
  | [b0, b1, b2, b3] => to_int ((b0 + 256 * b1 + 65536 * b2 + 16777216 * b3 : Nat) : Int)
  | _ => 0

/-! ## Memory blocks -/

/-- Reading `n` bytes at offset `off` through a pointer; `none` when the
pointer is `NULL` or the range leaves the block (reading no byte is always
fine). -/
def read_bytes (buffer : Option (List Nat)) (off n : Nat) : Option (List Nat) :=
  if n = 0 then some []
  else
    match buffer with
    | none => none
    | some block =>
      if off + n ≤ block.length then some ((block.drop off).take n) else none

/-- Writing `bytes` at offset `off` of a block; `none` when the range leaves
the block. -/
def write_bytes (block : List Nat) (off : Nat) (bytes : List Nat) : Option (List Nat) :=
  if off + bytes.length ≤ block.length then
    some (block.take off ++ bytes ++ block.drop (off + bytes.length))
  else none

/-- A block of `size` bytes with indeterminate contents: byte `i` holds
`junk i`. -/
def fresh_block (junk : Nat → Nat) (size : Nat) : List Nat :=
  (List.range size).map junk

/-- The pointer `heap_alloc` (heap.c 52-87) hands to its callers in `fs.c`, for
a request of `size` bytes (a `size_t`).  A request of at most `2^63` bytes is
served with a fresh block.  A larger one (the `size_t` of a negative `int`, for
one) is not: the allocator asks for `size + 80` bytes (heap.c 57), which either
cannot be reserved, so that `NULL` comes back (heap.c 67-73), or wraps around to
less than the call stack `debug_backtrace` stores in front of the block
(heap.c 83).  `none` stands for both: the caller has no byte it may touch. -/
def heap_alloc (junk : Nat → Nat) (size : Nat) : Option (List Nat) :=
  if size ≤ 2 ^ 63 then some (fresh_block junk size) else none

/-! ## Data model -/

inductive fs_work_op_t where
  | k_fs_work_op_read
  | k_fs_work_op_write
  deriving DecidableEq, Repr

inductive fs_compress_op_t where
  | k_fs_work_op_compress
  | k_fs_work_op_decompress
  deriving DecidableEq, Repr

open fs_work_op_t fs_compress_op_t

/-- The facade `fs_t`: only the heap handle is data; the two queues and the
two threads appear through the effects. -/
structure fs_t where
  heap : Nat
  deriving DecidableEq, Repr

/-- The work item `fs_work_t`.  `done` and `com_done` hold the raised state of
the two events. -/
structure fs_work_t where
  heap : Nat
  op : fs_work_op_t
  path : String
  null_terminate : Bool
  use_compression : fs_compress_op_t
  buffer : Option (List Nat)
  size : Nat
  compression_size : Nat
  done : Bool
  com_done : Bool
  result : Int
  fs : fs_t
  deriving DecidableEq, Repr

/-- The two events of a work item. -/
inductive Ev where
  | done
  | com_done
  deriving DecidableEq, Repr

/-- The two queues of the facade. -/
inductive Q where
  | file_queue
  | compress_queue
  deriving DecidableEq, Repr

/-- What a `heap_alloc` / `heap_free` call is about. -/
inductive Obj where
  | work_item
  | buffer
  | buffer_temp
  deriving DecidableEq, Repr

/-- Externally visible effects on one work item. -/
inductive Effect where
  | heap_alloc (heap : Nat) (size : Nat) (obj : Obj)
  | heap_free (heap : Nat) (obj : Obj)
  | event_create (e : Ev)
  | event_signal (e : Ev)
  | event_wait (e : Ev)
  | event_destroy (e : Ev)
  | queue_push (q : Q)
  | WriteFile (bytes : List Nat)
  deriving DecidableEq, Repr

/-- The codec and the contents of fresh memory.  Each LZ4 entry point maps the
source bytes, the source size and the destination capacity to its return
value and the bytes it wrote at the start of the destination. -/
structure Env where
  LZ4_compress_default : List Nat → Int → Int → Int × List Nat
  LZ4_decompress_safe : List Nat → Int → Int → Int × List Nat
  junk : Nat → Nat

/-- Outcome of the Win32 calls of `file_read`: the return value of
`MultiByteToWideChar`, the `GetLastError` code of each call that fails, and
the contents of the file. -/
structure ReadOs where
  wide : Int
  open_err : Option Int
  size_err : Option Int
  read_err : Option Int
  data : List Nat

/-- Outcome of the Win32 calls of `file_write`. -/
structure WriteOs where
  wide : Int
  open_err : Option Int
  write_err : Option Int

/-- The value of `sizeof(fs_work_t)` on Win64. -/
def sizeof_fs_work_t : Nat := 1104

/-- Size of the arrays `fs_work_t.path` (fs.c 39) and `trace_t.path`
(trace.c 35). -/
def sizeof_path : Nat := 1024

/-! ## Compression worker -/

/-- Embedding of `file_compress` (fs.c 314-329).  The pointer from `heap_alloc`
is used untested: without a block the codec's destination `buffer_temp + 4`
and the argument of `heap_free` are invalid. -/
def file_compress (env : Env) (work : fs_work_t) : Option (fs_work_t × List Effect) :=
  let cap := size_t (work.size + 4)
  match heap_alloc env.junk cap with
  | none => none
  | some buffer_temp =>
    let src_size := to_int work.size
    match read_bytes work.buffer 0 src_size.toNat with
    | none => none
    | some src =>
      let r := env.LZ4_compress_default src src_size src_size
      let compressed_size := r.1
      match write_bytes buffer_temp 4 r.2 with
      | none => none
      | some buffer_temp =>
        if compressed_size ≠ 0 then
          match write_bytes buffer_temp 0 (store_int (to_int work.size)) with
          | none => none
          | some buffer_temp =>
            some ({ work with
                      compression_size := size_t (compressed_size + 4)
                      buffer := some buffer_temp
                      com_done := true },
                  [Effect.heap_alloc work.heap cap Obj.buffer_temp,
                   Effect.event_signal Ev.com_done])
        else
          some ({ work with com_done := true },
                [Effect.heap_alloc work.heap cap Obj.buffer_temp,
                 Effect.heap_free work.heap Obj.buffer_temp,
                 Effect.event_signal Ev.com_done])

/-- Embedding of `file_decompress` (fs.c 331-347).  The pointer from
`heap_alloc` is used untested: without a block (a negative header, for one) the
codec's destination and the argument of `heap_free` are invalid. -/
def file_decompress (env : Env) (work : fs_work_t) : Option (fs_work_t × List Effect) :=
  match read_bytes work.buffer 0 4 with
  | none => none
  | some header =>
    let decompressed_size := load_int header
    let cap := size_t (if work.null_terminate then to_int (decompressed_size + 1)
                       else decompressed_size)
    match heap_alloc env.junk cap with
    | none => none
    | some buffer_temp =>
      let compressed_size := to_int (size_t ((work.size : Int) - 4))
      match read_bytes work.buffer 4 compressed_size.toNat with
      | none => none
      | some compressed =>
        let r := env.LZ4_decompress_safe compressed compressed_size decompressed_size
        let decompress_size := r.1
        match write_bytes buffer_temp 0 r.2 with
        | none => none
        | some buffer_temp =>
          if decompress_size > 0 then
            some ({ work with
                      size := size_t decompress_size
                      buffer := some buffer_temp
                      com_done := true },
                  [Effect.heap_alloc work.heap cap Obj.buffer_temp,
                   Effect.heap_free work.heap Obj.buffer,
                   Effect.event_signal Ev.com_done])
          else
            some ({ work with com_done := true },
                  [Effect.heap_alloc work.heap cap Obj.buffer_temp,
                   Effect.heap_free work.heap Obj.buffer_temp,
                   Effect.event_signal Ev.com_done])

/-- One iteration of the loop of `file_compress_func` (fs.c 360-367) on a
non-NULL item: the dispatch on `use_compression`. -/
def file_compress_func_step (env : Env) (work : fs_work_t) :
    Option (fs_work_t × List Effect) :=
  match work.use_compression with
  | k_fs_work_op_compress => file_compress env work
  | k_fs_work_op_decompress => file_decompress env work

/-! ## Submission -/

/-- The effects with which `fs_read` and `fs_write` create a work item:
`heap_alloc` of the item and the two `event_create` calls. -/
def created (fs : fs_t) : List Effect :=
  [Effect.heap_alloc fs.heap sizeof_fs_work_t Obj.work_item,
   Effect.event_create Ev.done,
   Effect.event_create Ev.com_done]

/-- Embedding of `fs_read` (fs.c 80-103).  `uninit` is what the fresh work item
holds in the field the function does not set (`compression_size`).  The call
returns when `strcpy_s` (fs.c 85) can copy the path and its terminator into
`work->path`. -/
def fs_read (fs : fs_t) (path : String) (heap : Nat) (null_terminate use_compression : Bool)
    (uninit : Nat) : Option (fs_work_t × List Effect) :=
  if path.utf8ByteSize < sizeof_path then
    some ({ heap := heap
            op := k_fs_work_op_read
            path := path
            null_terminate := null_terminate
            use_compression :=
              if use_compression then k_fs_work_op_decompress else k_fs_work_op_compress
            buffer := none
            size := 0
            compression_size := uninit
            done := false
            com_done := false
            result := 0
            fs := fs },
          created fs ++ [Effect.queue_push Q.file_queue])
  else none

/-- Embedding of `fs_write` (fs.c 105-136).  The call goes on past `strcpy_s`
(fs.c 110) when the path and its terminator fit `work->path`.  With compression
the caller blocks on `com_done` while the compression worker handles the
item. -/
def fs_write (env : Env) (fs : fs_t) (path : String) (buffer : Option (List Nat)) (size : Nat)
    (use_compression : Bool) (uninit : Nat) : Option (fs_work_t × List Effect) :=
  if path.utf8ByteSize < sizeof_path then
    let work : fs_work_t :=
      { heap := fs.heap
        op := k_fs_work_op_write
        path := path
        null_terminate := false
        use_compression := k_fs_work_op_decompress
        buffer := buffer
        size := size
        compression_size := uninit
        done := false
        com_done := false
        result := 0
        fs := fs }
    if use_compression then
      let work := { work with use_compression := k_fs_work_op_compress }
      match file_compress_func_step env work with
      | none => none
      | some (work, stage) =>
        if work.com_done then
          some (work,
                created fs ++ [Effect.queue_push Q.compress_queue] ++ stage ++
                  [Effect.event_wait Ev.com_done, Effect.queue_push Q.file_queue])
        else none
    else
      some ({ work with com_done := true },
            created fs ++ [Effect.event_signal Ev.com_done, Effect.queue_push Q.file_queue])
  else none

/-! ## File worker -/

/-- The store `((char*)work->buffer)[work->size] = 0` of `file_read`. -/
def null_terminate_store (work : fs_work_t) : Option fs_work_t :=
  match work.buffer with
  | none => none
  | some block =>
    match write_bytes block work.size [0] with
    | none => none
    | some block => some { work with buffer := some block }

/-- The end of `file_read`, after `CloseHandle` (fs.c 218-237): the optional
decompression hand-off, the terminator, the done signal.  `pre` holds the
effects of the first part of `file_read`. -/
def file_read_finish (env : Env) (work : fs_work_t) (pre : List Effect) :
    Option (fs_work_t × List Effect) :=
  if work.use_compression = k_fs_work_op_decompress then
    match file_compress_func_step env work with
    | none => none
    | some (work, stage) =>
      if work.com_done then
        let pre := pre ++ [Effect.queue_push Q.compress_queue] ++ stage ++
          [Effect.event_wait Ev.com_done]
        if work.null_terminate then
          match null_terminate_store work with
          | none => none
          | some work =>
            some ({ work with done := true }, pre ++ [Effect.event_signal Ev.done])
        else
          some ({ work with done := true }, pre ++ [Effect.event_signal Ev.done])
      else none
  else
    let work := { work with com_done := true }
    let pre := pre ++ [Effect.event_signal Ev.com_done]
    if work.null_terminate then
      match null_terminate_store work with
      | none => none
      | some work =>
        some ({ work with done := true }, pre ++ [Effect.event_signal Ev.done])
    else
      some ({ work with done := true }, pre ++ [Effect.event_signal Ev.done])

/-- Embedding of `file_read` (fs.c 179-238); its last part is
`file_read_finish`.  The pointer from `heap_alloc` goes to `ReadFile` untested;
a `ReadFile` that reports success has filled a block, so success without a
block is `none`. -/
def file_read (env : Env) (os : ReadOs) (work : fs_work_t) : Option (fs_work_t × List Effect) :=
  if os.wide ≤ 0 then some ({ work with result := -1 }, [])
  else
    match os.open_err with
    | some e => some ({ work with result := e }, [])
    | none =>
      match os.size_err with
      | some e => some ({ work with result := e }, [])
      | none =>
        let work := { work with size := os.data.length }
        let cap := size_t (if work.null_terminate then work.size + 1 else work.size)
        let work := { work with buffer := heap_alloc env.junk cap }
        let alloc := [Effect.heap_alloc work.heap cap Obj.buffer]
        match os.read_err with
        | some e => some ({ work with result := e }, alloc)
        | none =>
          let bytes := os.data.take (DWORD work.size)
          match work.buffer with
          | none => none
          | some block =>
            match write_bytes block 0 bytes with
            | none => none
            | some block =>
              file_read_finish env { work with buffer := some block, size := bytes.length } alloc

/-- Embedding of `file_write` (fs.c 240-286).  `WriteFile` is handed the
buffer pointer and a `DWORD` count; a call that succeeds takes exactly that
many bytes from the buffer (the effect `WriteFile bytes`) and reports them all
as written. -/
def file_write (os : WriteOs) (work : fs_work_t) : Option (fs_work_t × List Effect) :=
  if os.wide ≤ 0 then some ({ work with result := -1 }, [])
  else
    match os.open_err with
    | some e => some ({ work with result := e }, [])
    | none =>
      if work.use_compression = k_fs_work_op_compress then
        match os.write_err with
        | some e => some ({ work with result := e }, [])
        | none =>
          match read_bytes work.buffer 0 (DWORD work.compression_size) with
          | none => none
          | some bytes =>
            some ({ work with compression_size := bytes.length, done := true },
                  [Effect.WriteFile bytes,
                   Effect.heap_free work.heap Obj.buffer,
                   Effect.event_signal Ev.done])
      else
        match os.write_err with
        | some e => some ({ work with result := e }, [])
        | none =>
          match read_bytes work.buffer 0 (DWORD work.size) with
          | none => none
          | some bytes =>
            some ({ work with size := bytes.length, done := true },
                  [Effect.WriteFile bytes, Effect.event_signal Ev.done])

/-- One iteration of the loop of `file_thread_func` (fs.c 299-307) on a
non-NULL item: the dispatch on `op`.  The item meets the outcome of the Win32
calls of its own operation. -/
def file_thread_func_step (env : Env) (ros : ReadOs) (wos : WriteOs) (work : fs_work_t) :
    Option (fs_work_t × List Effect) :=
  match work.op with
  | k_fs_work_op_read => file_read env ros work
  | k_fs_work_op_write => file_write wos work

/-! ## Result retrieval -/

/-- Embedding of `fs_work_is_done` (fs.c 138-141). -/
def fs_work_is_done (work : Option fs_work_t) : Bool :=
  match work with
  | some w => w.done
  | none => true

/-- Embedding of `fs_work_wait` (fs.c 143-149), on an item no worker will touch
again: it returns (`some`) exactly when there is nothing to wait for. -/
def fs_work_wait (work : Option fs_work_t) : Option Unit :=
  match work with
  | some w => if w.done then some () else none
  | none => some ()

/-- Embedding of `fs_work_get_result` (fs.c 151-155). -/
def fs_work_get_result (work : Option fs_work_t) : Option Int :=
  match fs_work_wait work with
  | none => none
  | some _ =>
    match work with
    | some w => some w.result
    | none => some (-1)

/-- Embedding of `fs_work_get_buffer` (fs.c 157-161); the inner `none` is
`NULL`. -/
def fs_work_get_buffer (work : Option fs_work_t) : Option (Option (List Nat)) :=
  match fs_work_wait work with
  | none => none
  | some _ =>
    match work with
    | some w => some w.buffer
    | none => some none

/-- Embedding of `fs_work_get_size` (fs.c 163-167). -/
def fs_work_get_size (work : Option fs_work_t) : Option Nat :=
  match fs_work_wait work with
  | none => none
  | some _ =>
    match work with
    | some w => some w.size
    | none => some 0

/-- Embedding of `fs_work_destroy` (fs.c 169-177), on an item no worker will
touch again; it returns the effects it performed, in order.  `none`: the wait
on the done signal never returns. -/
def fs_work_destroy (work : Option fs_work_t) : Option (List Effect) :=
  match work with
  | none => some []
  | some w =>
    if w.done then
      some [Effect.event_wait Ev.done,
            Effect.event_destroy Ev.done,
            Effect.heap_free w.heap Obj.work_item]
    else none

/-! ## Worker loops -/

/-- Embedding of `file_thread_func` (fs.c 288-310).  The argument lists what
`queue_pop` returns, in order (`none` is the NULL sentinel), each item with the
outcome of the Win32 calls it will meet.  The result is the thread's return
value and, for each handled item in order, what its handler returned.  `none`:
the thread does not return (`queue_pop` on an exhausted queue blocks, or a
handler is undefined). -/
def file_thread_func (env : Env) :
    List (Option (fs_work_t × ReadOs × WriteOs)) → Option (Int × List (fs_work_t × List Effect))
  | [] => none
  | none :: _ => some (0, [])
  | some (work, ros, wos) :: rest =>
    match file_thread_func_step env ros wos work with
    | none => none
    | some handled =>
      match file_thread_func env rest with
      | none => none
      | some (ret, more) => some (ret, handled :: more)

/-- Embedding of `file_compress_func` (fs.c 349-370), in the same way. -/
def file_compress_func (env : Env) :
    List (Option fs_work_t) → Option (Int × List (fs_work_t × List Effect))
  | [] => none
  | none :: _ => some (0, [])
  | some work :: rest =>
    match file_compress_func_step env work with
    | none => none
    | some handled =>
      match file_compress_func env rest with
      | none => none
      | some (ret, more) => some (ret, handled :: more)

/-- What a compression stage may change: it raises the stage signal, never the
done signal, and leaves `result`, `op`, `path`, `null_terminate` and
`use_compression` as they were. -/
def stage_frame (work w : fs_work_t) (st : List Effect) : Prop :=
  w.com_done = true ∧
  Effect.event_signal Ev.com_done ∈ st ∧
  Effect.event_signal Ev.done ∉ st ∧
  w.done = work.done ∧
  w.result = work.result ∧
  w.op = work.op ∧
  w.path = work.path ∧
  w.null_terminate = work.null_terminate ∧
  w.use_compression = work.use_compression

/-! ## The allocator (`src/src/heap.c`) -/

namespace Heap

/-- Calls the allocator makes, in program order. -/
inductive Call where
  | mutex_lock
  | mutex_unlock
  | tlsf_memalign (alignment size : Nat)
  | VirtualAlloc (size : Nat)
  | tlsf_add_pool (size : Nat)
  | tlsf_free (address : Nat)
  | debug_print
  | debug_backtrace
  deriving DecidableEq, Repr

/-- The data of `heap_t` that `heap_alloc` reads. -/
structure heap_t where
  grow_increment : Nat
  deriving DecidableEq, Repr

/-- Outcome of the calls `heap_alloc` depends on: the two `tlsf_memalign`
results and the `VirtualAlloc` result (`none` is NULL), and the value of
`tlsf_pool_overhead ()`. -/
structure AllocOs where
  first : Option Nat
  arena : Option Nat
  second : Option Nat
  pool_overhead : Nat
  deriving DecidableEq, Repr

/-- The constant `CALLSTACK_DEPTH` (heap.c 16). -/
def CALLSTACK_DEPTH : Nat := 10

/-- The value of `sizeof(void*)` on Win64. -/
def sizeof_ptr : Nat := 8

/-- The value of `sizeof(arena_t)` on Win64. -/
def sizeof_arena_t : Nat := 16

/-- Embedding of `heap_alloc` (heap.c 52-87): the returned pointer (`none` is
NULL) and the calls made.  The outer `none`: `debug_backtrace` is handed the
NULL that the second `tlsf_memalign` returned. -/
def heap_alloc (heap : heap_t) (os : AllocOs) (size alignment : Nat) :
    Option (Option Nat × List Call) :=
  let real_size := (size + sizeof_ptr * CALLSTACK_DEPTH) % 2 ^ 64
  match os.first with
  | some address =>
    some (some (address + sizeof_ptr * CALLSTACK_DEPTH),
          [Call.mutex_lock, Call.tlsf_memalign alignment real_size,
           Call.debug_backtrace, Call.mutex_unlock])
  | none =>
    let arena_size := (max heap.grow_increment (real_size * 2 % 2 ^ 64) + sizeof_arena_t) % 2 ^ 64
    let request := (arena_size + os.pool_overhead) % 2 ^ 64
    match os.arena with
    | none =>
      some (none,
            [Call.mutex_lock, Call.tlsf_memalign alignment real_size,
             Call.VirtualAlloc request, Call.debug_print])
    | some _ =>
      match os.second with
      | none => none
      | some address =>
        some (some (address + sizeof_ptr * CALLSTACK_DEPTH),
              [Call.mutex_lock, Call.tlsf_memalign alignment real_size,
               Call.VirtualAlloc request, Call.tlsf_add_pool arena_size,
               Call.tlsf_memalign alignment real_size,
               Call.debug_backtrace, Call.mutex_unlock])

/-- Embedding of `heap_free` (heap.c 89-94): the calls made. -/
def heap_free (address : Nat) : List Call :=
  [Call.mutex_lock, Call.tlsf_free (address - sizeof_ptr * CALLSTACK_DEPTH), Call.mutex_unlock]

end Heap

/-! ## Compositions and sample environments -/

/-- The bytes of the first `WriteFile` of a run. -/
def written (tr : List Effect) : Option (List Nat) :=
  tr.findSome? fun e =>
    match e with
    | Effect.WriteFile bytes => some bytes
    | _ => none

/-- All Win32 calls of `file_write` succeed. -/
def write_ok : WriteOs := { wide := 1, open_err := none, write_err := none }

/-- All Win32 calls of `file_read` succeed on a file holding `data`. -/
def read_ok (data : List Nat) : ReadOs :=
  { wide := 1, open_err := none, size_err := none, read_err := none, data := data }

/-- Compressed write of `B` followed by a decompressing read of the same path:
`fs_write` with compression (which runs `file_compress`), `file_write`, then
`fs_read` with decompression and `file_read` (which runs `file_decompress`) on
the bytes the write left on disk.  Returns the two finished work items. -/
def write_then_read (env : Env) (fs : fs_t) (path : String) (B : List Nat) (heap : Nat)
    (null_terminate : Bool) (u1 u2 : Nat) : Option (fs_work_t × fs_work_t) :=
  match fs_write env fs path (some B) B.length true u1 with
  | none => none
  | some (w, _) =>
    match file_write write_ok w with
    | none => none
    | some (w, tr) =>
      match written tr with
      | none => none
      | some disk =>
        match fs_read fs path heap null_terminate true u2 with
        | none => none
        | some (item, _) =>
          match file_read env (read_ok disk) item with
          | none => none
          | some (r, _) => some (w, r)

/-- A path that does not exist: `CreateFile` fails with `ERROR_FILE_NOT_FOUND`. -/
def missing_file : ReadOs :=
  { wide := 1, open_err := some 2, size_err := none, read_err := none, data := [] }

/-- The read item `fs_read` makes on the facade of heap 1 for the path
`missing.txt`, destination heap 1 and no flag set. -/
def sample_read_item : fs_work_t :=
  { heap := 1, op := k_fs_work_op_read, path := "missing.txt", null_terminate := false,
    use_compression := k_fs_work_op_compress, buffer := none, size := 0,
    compression_size := 0, done := false, com_done := false, result := 0, fs := { heap := 1 } }

/-- A path of 1024 bytes: with its terminator it does not fit `work->path`. -/
def long_path : String := String.mk (List.replicate 1024 'a')

/-- A sample uncompressed write item of three bytes, as `fs_write` leaves it. -/
def sample_write_item : fs_work_t :=
  { heap := 1, op := k_fs_work_op_write, path := "out.bin", null_terminate := false,
    use_compression := k_fs_work_op_decompress, buffer := some [1, 2, 3], size := 3,
    compression_size := 0, done := false, com_done := true, result := 0, fs := { heap := 1 } }

/-- A sample read item after the disk read of the framed file
`[5, 0, 0, 0, 3, 7, 7]`, as `file_read` pushes it onto the compression queue. -/
def sample_framed_item : fs_work_t :=
  { heap := 2, op := k_fs_work_op_read, path := "save.bin", null_terminate := false,
    use_compression := k_fs_work_op_decompress, buffer := some [5, 0, 0, 0, 3, 7, 7], size := 7,
    compression_size := 0, done := false, com_done := false, result := 0, fs := { heap := 1 } }

/-- Some Win32 call of `file_read` fails. -/
def ReadOs.fails (os : ReadOs) : Prop :=
  os.wide ≤ 0 ∨ os.open_err ≠ none ∨ os.size_err ≠ none ∨ os.read_err ≠ none

/-- A failed Win32 call of `file_read` leaves a non-zero `GetLastError`. -/
def ReadOs.codes_nonzero (os : ReadOs) : Prop :=
  os.open_err ≠ some 0 ∧ os.size_err ≠ some 0 ∧ os.read_err ≠ some 0

/-- Some Win32 call of `file_write` fails. -/
def WriteOs.fails (os : WriteOs) : Prop :=
  os.wide ≤ 0 ∨ os.open_err ≠ none ∨ os.write_err ≠ none

/-- A failed Win32 call of `file_write` leaves a non-zero `GetLastError`. -/
def WriteOs.codes_nonzero (os : WriteOs) : Prop :=
  os.open_err ≠ some 0 ∧ os.write_err ≠ some 0

/-- The compressor never writes past the destination capacity it is given. -/
def Env.compress_in_bounds (env : Env) : Prop :=
  ∀ (src : List Nat) (n cap : Int), ((env.LZ4_compress_default src n cap).2.length : Int) ≤ max cap 0

/-- The decompressor never writes past the destination capacity it is given,
and a positive return value is at most that capacity. -/
def Env.decompress_in_bounds (env : Env) : Prop :=
  ∀ (src : List Nat) (n cap : Int),
    ((env.LZ4_decompress_safe src n cap).2.length : Int) ≤ max cap 0 ∧
    (0 < (env.LZ4_decompress_safe src n cap).1 → (env.LZ4_decompress_safe src n cap).1 ≤ cap)

/-- The decompressor inverts the compressor: whenever compressing `src` into a
destination of capacity `cap` succeeds (non-zero return), the return value is
the number of bytes written, at most `cap`, and decompressing those bytes into
a destination of capacity `|src|` returns `|src|` and writes `src`. -/
def Env.inverts (env : Env) : Prop :=
  ∀ (src : List Nat) (cap : Int),
    (env.LZ4_compress_default src src.length cap).1 ≠ 0 →
    (env.LZ4_compress_default src src.length cap).1
        = (env.LZ4_compress_default src src.length cap).2.length ∧
      ((env.LZ4_compress_default src src.length cap).2.length : Int) ≤ cap ∧
      env.LZ4_decompress_safe (env.LZ4_compress_default src src.length cap).2
        (env.LZ4_compress_default src src.length cap).1 src.length
        = ((src.length : Int), src)

/-- Number of leading zero bytes, at most 255. -/
def zero_run : List Nat → Nat
  | 0 :: rest => if zero_run rest < 255 then zero_run rest + 1 else 255
  | _ => 0

/-- A sample codec: the leading run of zero bytes is replaced by its length.
Like LZ4 it fails (returns 0) when the output does not fit the capacity, so
data without a leading zero is incompressible for it. -/
def sample_compress (src : List Nat) (_src_size : Int) (capacity : Int) : Int × List Nat :=
  let out := zero_run src :: src.drop (zero_run src)
  if (out.length : Int) ≤ capacity then (out.length, out) else (0, [])

/-- Inverse of `sample_compress`; a negative value reports failure. -/
def sample_decompress (src : List Nat) (_src_size : Int) (capacity : Int) : Int × List Nat :=
  match src with
  | [] => (-1, [])
  | k :: rest =>
    let out := List.replicate k 0 ++ rest
    if (out.length : Int) ≤ capacity then (out.length, out) else (-1, [])

/-- Sample environment: the sample codec, fresh memory filled with `0xCD`. -/
def sample_env : Env :=
  { LZ4_compress_default := sample_compress
    LZ4_decompress_safe := sample_decompress
    junk := fun _ => 205 }

/-! ## The trace recorder (`src/src/trace.c`) -/

/-- The bytes of a C string literal (ASCII), without the terminator. -/
def c_str (s : String) : List Nat := s.toList.map Char.toNat

/-- `strcpy_s (dest, cap, src)`: the new contents of `dest` when `src` and its
terminator fit `cap` bytes.  Otherwise the CRT calls its invalid-parameter
handler, which ends the process: `none`. -/
def strcpy_s (cap : Nat) (src : List Nat) : Option (List Nat) :=
  if src.length < cap then some src else none

/-- `strcat_s (dest, cap, src)`: the new contents of `dest` when both strings
and the terminator fit `cap` bytes; `none` as for `strcpy_s`. -/
def strcat_s (dest : List Nat) (cap : Nat) (src : List Nat) : Option (List Nat) :=
  if dest.length + src.length < cap then some (dest ++ src) else none

/-- `sprintf_s (buffer, cap, ...)` on the formatted text: `none` when the text
and its terminator do not fit `cap` bytes. -/
def sprintf_s (cap : Nat) (text : List Nat) : Option (List Nat) :=
  if text.length < cap then some text else none

/-- The record `event_t` (trace.c 17-23); the `next` pointer is the tail of the
list that holds the record. -/
structure event_t where
  name : List Nat
  pid : Nat
  tid : Nat
  deriving DecidableEq, Repr

/-- The recorder `trace_t` (trace.c 26-38).  `events` is the linked list from
its head; `path` and `info` hold the C string in the array, `none` while the
array has never been written (fresh memory, contents indeterminate).  The mutex
is locked and unlocked around every list update and holds no data. -/
structure trace_t where
  capacity : Int
  event_num : Int
  events : List event_t
  heap : Nat
  fs : fs_t
  path : Option String
  info : Option (List Nat)
  started : Bool
  deriving DecidableEq, Repr

/-- Size of the array `event_t.name` (trace.c 19). -/
def sizeof_name : Nat := 256

/-- Size of the array `trace_t.info` (trace.c 36). -/
def sizeof_info : Nat := 5120

/-- Size of the local `buffer` of the two duration functions (trace.c 83, 102). -/
def sizeof_buffer : Nat := 512

/-- The text both duration functions format (trace.c 84, 103): `ph` is `B` in
`trace_duration_push` and `E` in `trace_duration_pop`, the three numbers are
printed with `PRIu64`. -/
def duration_text (ph : String) (name : List Nat) (pid tid us : Nat) : List Nat :=
  c_str "\n\t\t\x7b\"name\": \"" ++ name ++ c_str "\",\"ph\" : \"" ++ c_str ph ++
    c_str "\",\"pid\" : " ++ c_str (Nat.repr pid) ++ c_str ",\"tid\" : \"" ++
    c_str (Nat.repr tid) ++ c_str "\",\"ts\" : " ++ c_str (Nat.repr us) ++ c_str " \x7d,"

/-- Embedding of `trace_create` (trace.c 40-51); `fs_create` gives a facade on
the same heap. -/
def trace_create (heap : Nat) (event_capacity : Int) : trace_t :=
  { capacity := event_capacity
    started := false
    events := []
    event_num := 0
    heap := heap
    fs := { heap := heap }
    path := none
    info := none }

/-- Embedding of `trace_duration_push` (trace.c 68-90).  `pid`, `tid` are what
`GetCurrentProcessId` and `GetCurrentThreadId` return, `us` is the time stamp
from the timer. -/
def trace_duration_push (trace : trace_t) (name : List Nat) (pid tid us : Nat) :
    Option trace_t :=
  if trace.started then
    if trace.event_num < trace.capacity then
      match strcpy_s sizeof_name name with
      | none => none
      | some copied =>
        let current : event_t := { name := copied, pid := pid, tid := tid }
        let trace := { trace with
                         events := current :: trace.events
                         event_num := to_int (trace.event_num + 1) }
        match sprintf_s sizeof_buffer (duration_text "B" name current.pid current.tid us) with
        | none => none
        | some buffer =>
          match trace.info with
          | none => none
          | some info =>
            match strcat_s info sizeof_info buffer with
            | none => none
            | some info => some { trace with info := some info }
    else some trace
  else some trace

/-- Embedding of `trace_duration_pop` (trace.c 92-110). -/
def trace_duration_pop (trace : trace_t) (us : Nat) : Option trace_t :=
  if trace.started then
    match trace.events with
    | [] => some trace
    | popping :: next =>
      let trace := { trace with events := next, event_num := to_int (trace.event_num - 1) }
      match sprintf_s sizeof_buffer
          (duration_text "E" popping.name popping.pid popping.tid us) with
      | none => none
      | some buffer =>
        match trace.info with
        | none => none
        | some info =>
          match strcat_s info sizeof_info buffer with
          | none => none
          | some info => some { trace with info := some info }
  else some trace

/-- Embedding of `trace_capture_start` (trace.c 112-118). -/
def trace_capture_start (trace : trace_t) (path : String) : Option trace_t :=
  let trace := { trace with started := true }
  if path.utf8ByteSize < sizeof_path then
    let trace := { trace with path := some path }
    match strcpy_s sizeof_info (c_str "\x7b\n\t\"displayTimeUnit\": \"ns\", \"traceEvents\" : [") with
    | none => none
    | some info => some { trace with info := some info }
  else none

/-- Embedding of `trace_capture_stop` (trace.c 120-129), sequentialised: the
file worker handles the write job between `fs_write` and `fs_work_destroy`.
Returns the recorder and the effects of the write job.  `none`: the text is
read before it was ever written, the closing text does not fit, or the wait in
`fs_work_destroy` never returns. -/
def trace_capture_stop (env : Env) (os : WriteOs) (uninit : Nat) (trace : trace_t) :
    Option (trace_t × List Effect) :=
  let trace := { trace with started := false }
  match trace.info with
  | none => none
  | some info =>
    if info.length = 0 then none
    else
      match strcat_s info.dropLast sizeof_info (c_str "\n\t] \n\x7d") with
      | none => none
      | some info =>
        let trace := { trace with info := some info }
        match trace.path with
        | none => none
        | some path =>
          match fs_write env trace.fs path (some (info ++ [0])) info.length false uninit with
          | none => none
          | some (writework, submit) =>
            match file_write os writework with
            | none => none
            | some (writework, written) =>
              match fs_work_destroy (some writework) with
              | none => none
              | some destroy => some (trace, submit ++ written ++ destroy)

/-- One call on a recorder. -/
inductive trace_call where
  | capture_start (path : String)
  | duration_push (name : List Nat) (pid tid us : Nat)
  | duration_pop (us : Nat)
  | capture_stop (os : WriteOs) (uninit : Nat)

/-- The recorder after one call. -/
def trace_step (env : Env) (trace : trace_t) : trace_call → Option trace_t
  | trace_call.capture_start path => trace_capture_start trace path
  | trace_call.duration_push name pid tid us => trace_duration_push trace name pid tid us
  | trace_call.duration_pop us => trace_duration_pop trace us
  | trace_call.capture_stop os uninit => (trace_capture_stop env os uninit trace).map Prod.fst

/-- The recorder after a sequence of calls, each one returning. -/
def trace_run (env : Env) (trace : trace_t) : List trace_call → Option trace_t
  | [] => some trace
  | call :: rest =>
    match trace_step env trace call with
    | none => none
    | some trace => trace_run env trace rest

/-- A sample session: start, two pushes, one pop, stop. -/
def sample_calls : List trace_call :=
  [trace_call.capture_start "trace.json",
   trace_call.duration_push (c_str "frame") 4 8 100,
   trace_call.duration_push (c_str "render") 4 8 120,
   trace_call.duration_pop 150,
   trace_call.capture_stop write_ok 0]

/-- The stack invariant of a recorder created with `capacity`: the capacity is
kept, `event_num` counts the list and does not exceed the capacity, and a
started recorder has its text written. -/
def trace_inv (capacity : Int) (t : trace_t) : Prop :=
  t.capacity = capacity ∧
  t.event_num = (t.events.length : Int) ∧
  t.event_num ≤ t.capacity ∧
  (t.started = true → t.info ≠ none)

/-! ## Arithmetic and memory lemmas -/

theorem size_t_natCast (n : Nat) (h : n < 2 ^ 64) : size_t (n : Int) = n := by
  unfold size_t; omega

theorem size_t_natCast_add (n k : Nat) (h : n + k < 2 ^ 64) : size_t ((n : Int) + (k : Int)) = n + k := by
  unfold size_t; omega

theorem to_int_natCast (n : Nat) (h : n < 2 ^ 31) : to_int (n : Int) = n := by
  unfold to_int; split <;> omega

theorem DWORD_le (n : Nat) : DWORD n ≤ n := Nat.mod_le _ _

theorem DWORD_small (n : Nat) (h : n < 2 ^ 32) : DWORD n = n := Nat.mod_eq_of_lt h

theorem store_int_length (v : Int) : (store_int v).length = 4 := rfl

theorem load_store_int (n : Nat) (h : n < 2 ^ 31) : load_int (store_int (n : Int)) = n := by
  simp only [store_int, load_int, to_int]
  split <;> omega

theorem fresh_block_length (junk : Nat → Nat) (n : Nat) : (fresh_block junk n).length = n := by
  simp [fresh_block]

theorem heap_alloc_some (junk : Nat → Nat) (n : Nat) (h : n ≤ 2 ^ 63) :
    heap_alloc junk n = some (fresh_block junk n) := by
  unfold heap_alloc
  rw [if_pos h]

theorem getElem?_append_cons_at (a b : List Nat) (x k : Nat) (h : a.length = k) :
    (a ++ x :: b)[k]? = some x := by
  subst h
  rw [List.getElem?_append_right (Nat.le_refl _)]
  simp

theorem take_append_at (a b : List Nat) (k : Nat) (h : a.length = k) : (a ++ b).take k = a := by
  subst h; simp

theorem drop_append_at (a b : List Nat) (k : Nat) (h : a.length = k) : (a ++ b).drop k = b := by
  subst h; simp

theorem write_bytes_zero (block bytes : List Nat) (h : bytes.length ≤ block.length) :
    write_bytes block 0 bytes = some (bytes ++ block.drop bytes.length) := by
  simp [write_bytes, h]

theorem write_bytes_length (block bytes out : List Nat) (off : Nat)
    (h : write_bytes block off bytes = some out) : out.length = block.length := by
  unfold write_bytes at h
  split at h
  · cases h
    simp only [List.length_append, List.length_take, List.length_drop]
    omega
  · cases h

theorem null_terminate_store_eq (work : fs_work_t) (block : List Nat)
    (hb : work.buffer = some block) (h : work.size < block.length) :
    null_terminate_store work =
      some { work with buffer := some (block.take work.size ++ 0 :: block.drop (work.size + 1)) } := by
  have h1 : work.size + 1 ≤ block.length := h
  simp [null_terminate_store, hb, write_bytes, h1]

theorem to_int_toNat_le (n : Nat) : (to_int (n : Int)).toNat ≤ n := by
  unfold to_int; split <;> omega

theorem read_bytes_some (block : List Nat) (off n : Nat) (h : off + n ≤ block.length) :
    read_bytes (some block) off n = some ((block.drop off).take n) := by
  unfold read_bytes
  by_cases hn : n = 0
  · simp [hn]
  · simp [hn, h]

/-- The two stores of `file_compress` into the fresh block: the codec output at
offset 4, then the header at offset 0. -/
theorem write_payload_then_header (T out H : List Nat) (hH : H.length = 4)
    (hfit : 4 + out.length ≤ T.length) :
    ∃ B1, write_bytes T 4 out = some B1 ∧
      write_bytes B1 0 H = some (H ++ out ++ T.drop (4 + out.length)) := by
  refine ⟨T.take 4 ++ out ++ T.drop (4 + out.length), by simp [write_bytes, hfit], ?_⟩
  have h4 : (T.take 4).length = 4 := by simp; omega
  have hlen : 0 + H.length ≤ (T.take 4 ++ out ++ T.drop (4 + out.length)).length := by
    simp only [List.length_append, h4, hH]; omega
  unfold write_bytes
  rw [if_pos hlen]
  simp only [List.take_zero, List.nil_append, hH, Nat.zero_add, List.append_assoc]
  rw [drop_append_at _ _ 4 h4]

/-- A codec that stays inside its destination wrote at most `n` bytes when
given the capacity `(int) n`. -/
theorem compress_in_bounds_le (env : Env) (hcodec : env.compress_in_bounds) (src : List Nat)
    (n : Nat) :
    (env.LZ4_compress_default src (to_int n) (to_int n)).2.length ≤ n := by
  have h := hcodec src (to_int n) (to_int n)
  have hle := to_int_toNat_le n
  omega

/-- What `file_compress` does on an item whose buffer holds `size` bytes, when
the codec wrote at most `size` bytes. -/
theorem file_compress_eq (env : Env) (work : fs_work_t) (blk : List Nat)
    (hb : work.buffer = some blk) (hsize : work.size ≤ blk.length)
    (hsz : work.size + 4 ≤ 2 ^ 63)
    (hout : (env.LZ4_compress_default (blk.take (to_int work.size).toNat)
      (to_int work.size) (to_int work.size)).2.length ≤ work.size) :
    file_compress env work =
      if (env.LZ4_compress_default (blk.take (to_int work.size).toNat)
            (to_int work.size) (to_int work.size)).1 ≠ 0 then
        some ({ work with
                  compression_size := size_t
                    ((env.LZ4_compress_default (blk.take (to_int work.size).toNat)
                      (to_int work.size) (to_int work.size)).1 + 4)
                  buffer := some (store_int (to_int work.size) ++
                    (env.LZ4_compress_default (blk.take (to_int work.size).toNat)
                      (to_int work.size) (to_int work.size)).2 ++
                    (fresh_block env.junk (work.size + 4)).drop
                      (4 + (env.LZ4_compress_default (blk.take (to_int work.size).toNat)
                        (to_int work.size) (to_int work.size)).2.length))
                  com_done := true },
              [Effect.heap_alloc work.heap (work.size + 4) Obj.buffer_temp,
               Effect.event_signal Ev.com_done])
      else
        some ({ work with com_done := true },
              [Effect.heap_alloc work.heap (work.size + 4) Obj.buffer_temp,
               Effect.heap_free work.heap Obj.buffer_temp,
               Effect.event_signal Ev.com_done]) := by
  have hle := to_int_toNat_le work.size
  have hcap : size_t ((work.size : Int) + 4) = work.size + 4 :=
    size_t_natCast_add _ 4 (by omega)
  have halloc := heap_alloc_some env.junk (work.size + 4) hsz
  have hrd := read_bytes_some blk 0 (to_int work.size).toNat (by omega)
  have hfit : 4 + (env.LZ4_compress_default (blk.take (to_int work.size).toNat)
      (to_int work.size) (to_int work.size)).2.length
      ≤ (fresh_block env.junk (work.size + 4)).length := by
    rw [fresh_block_length]; omega
  obtain ⟨B1, hB1, hB2⟩ := write_payload_then_header _ _ (store_int (to_int work.size))
    (store_int_length _) hfit
  simp only [List.drop_zero] at hrd
  unfold file_compress
  simp only [hcap, halloc, hb, hrd, hB1, hB2]

/-- With compression, `fs_write` returns what the compression stage returned,
between the push onto the compression queue and the wait on the stage signal. -/
theorem fs_write_compress_eq (env : Env) (fs : fs_t) (path : String)
    (buffer : Option (List Nat)) (size uninit : Nat) (w : fs_work_t) (st : List Effect)
    (hp : path.utf8ByteSize < sizeof_path)
    (h : file_compress env
      { heap := fs.heap, op := k_fs_work_op_write, path := path, null_terminate := false,
        use_compression := k_fs_work_op_compress, buffer := buffer, size := size,
        compression_size := uninit, done := false, com_done := false, result := 0, fs := fs }
      = some (w, st))
    (hcd : w.com_done = true) :
    fs_write env fs path buffer size true uninit =
      some (w, created fs ++ [Effect.queue_push Q.compress_queue] ++ st ++
        [Effect.event_wait Ev.com_done, Effect.queue_push Q.file_queue]) := by
  unfold fs_write
  rw [if_pos hp]
  simp only [if_true, file_compress_func_step, h, hcd, created]

theorem utf8ByteSize_replicate (n : Nat) :
    (String.mk (List.replicate n 'a')).utf8ByteSize = n := by
  induction n with
  | zero => rfl
  | succ n ih =>
    have h : Char.utf8Size 'a' = 1 := by decide
    simp only [String.utf8ByteSize, List.replicate_succ, String.utf8ByteSize.go] at ih ⊢
    rw [ih, h]

theorem long_path_size : long_path.utf8ByteSize = 1024 := utf8ByteSize_replicate 1024

theorem long_path_too_long : ¬ long_path.utf8ByteSize < sizeof_path := by
  rw [long_path_size]
  decide

/-- What `fs_read` returns for a path that fits `work->path`. -/
theorem fs_read_eq (fs : fs_t) (path : String) (heap : Nat)
    (null_terminate use_compression : Bool) (uninit : Nat)
    (hp : path.utf8ByteSize < sizeof_path) :
    fs_read fs path heap null_terminate use_compression uninit =
      some ({ heap := heap, op := k_fs_work_op_read, path := path,
              null_terminate := null_terminate,
              use_compression :=
                if use_compression then k_fs_work_op_decompress else k_fs_work_op_compress,
              buffer := none, size := 0, compression_size := uninit, done := false,
              com_done := false, result := 0, fs := fs },
            created fs ++ [Effect.queue_push Q.file_queue]) := by
  unfold fs_read
  rw [if_pos hp]

/-- What `fs_write` returns without compression for a path that fits
`work->path`. -/
theorem fs_write_plain_eq (env : Env) (fs : fs_t) (path : String)
    (buffer : Option (List Nat)) (size uninit : Nat)
    (hp : path.utf8ByteSize < sizeof_path) :
    fs_write env fs path buffer size false uninit =
      some ({ heap := fs.heap, op := k_fs_work_op_write, path := path, null_terminate := false,
              use_compression := k_fs_work_op_decompress, buffer := buffer, size := size,
              compression_size := uninit, done := false, com_done := true, result := 0,
              fs := fs },
            created fs ++ [Effect.event_signal Ev.com_done, Effect.queue_push Q.file_queue]) := by
  unfold fs_write
  rw [if_pos hp]
  rfl

/-- The compression stage of a write returns, raises the stage signal, and its
effects are an allocation, possibly a free, and the signal. -/
theorem file_compress_stage (env : Env) (work : fs_work_t) (blk : List Nat)
    (hb : work.buffer = some blk) (hsize : work.size ≤ blk.length)
    (hsz : work.size + 4 ≤ 2 ^ 63) (hcodec : env.compress_in_bounds) :
    ∃ w st, file_compress env work = some (w, st) ∧ w.com_done = true ∧
      (st = [Effect.heap_alloc work.heap (work.size + 4) Obj.buffer_temp,
             Effect.event_signal Ev.com_done] ∨
       st = [Effect.heap_alloc work.heap (work.size + 4) Obj.buffer_temp,
             Effect.heap_free work.heap Obj.buffer_temp,
             Effect.event_signal Ev.com_done]) := by
  have hc := file_compress_eq env work blk hb hsize hsz (compress_in_bounds_le env hcodec _ _)
  by_cases hr : (env.LZ4_compress_default (blk.take (to_int work.size).toNat)
      (to_int work.size) (to_int work.size)).1 ≠ 0
  · rw [if_pos hr] at hc
    exact ⟨_, _, hc, rfl, Or.inl rfl⟩
  · rw [if_neg hr] at hc
    exact ⟨_, _, hc, rfl, Or.inr rfl⟩

theorem to_int_range (x : Int) : -2 ^ 31 ≤ to_int x ∧ to_int x < 2 ^ 31 := by
  unfold to_int; split <;> omega

theorem load_int_range (bytes : List Nat) : -2 ^ 31 ≤ load_int bytes ∧ load_int bytes < 2 ^ 31 := by
  unfold load_int
  split
  · exact to_int_range _
  · omega

/-- The destination block of `file_decompress` holds at least the header value
(when that is positive), and one byte more when `null_terminate` is set. -/
theorem decompress_capacity (ds : Int) (nt : Bool) (h1 : -2 ^ 31 ≤ ds) (h2 : ds < 2 ^ 31) :
    max ds 0 ≤ (size_t (if nt then to_int (ds + 1) else ds) : Int) ∧
    (nt = true → 0 < ds → ds + 1 ≤ (size_t (if nt then to_int (ds + 1) else ds) : Int)) := by
  cases nt
  · simp only [Bool.false_eq_true, if_false]
    refine ⟨?_, fun h => by cases h⟩
    unfold size_t
    omega
  · simp only [↓reduceIte]
    refine ⟨?_, fun _ hpos => ?_⟩
    · unfold size_t to_int
      split <;> omega
    · unfold size_t to_int
      split <;> omega

/-- For a header value `ds ≥ 0` (below `2^31 - 1` when `null_terminate` is set)
the destination requested by `file_decompress` has `ds` bytes, or `ds + 1` with
`null_terminate`, and can be served. -/
theorem decompress_capacity_eq (ds : Int) (nt : Bool) (h0 : 0 ≤ ds) (h2 : ds < 2 ^ 31)
    (h1 : nt = true → ds < 2 ^ 31 - 1) :
    ((size_t (if nt then to_int (ds + 1) else ds) : Nat) : Int) = (if nt then ds + 1 else ds) ∧
    size_t (if nt then to_int (ds + 1) else ds) ≤ 2 ^ 63 := by
  cases nt
  · simp only [Bool.false_eq_true, if_false]
    unfold size_t
    omega
  · have h3 := h1 rfl
    simp only [↓reduceIte]
    unfold size_t to_int
    split <;> omega

/-- What `file_decompress` does on an item whose block holds the header and the
bytes handed to the codec, when the destination can be served and the codec
output fits it. -/
theorem file_decompress_eq (env : Env) (work : fs_work_t) (blk : List Nat)
    (hb : work.buffer = some blk) (h4 : 4 ≤ blk.length)
    (hsrc : 4 + (to_int (size_t ((work.size : Int) - 4))).toNat ≤ blk.length)
    (hserved : size_t (if work.null_terminate then to_int (load_int (blk.take 4) + 1)
          else load_int (blk.take 4)) ≤ 2 ^ 63)
    (hout : (env.LZ4_decompress_safe
        ((blk.drop 4).take (to_int (size_t ((work.size : Int) - 4))).toNat)
        (to_int (size_t ((work.size : Int) - 4))) (load_int (blk.take 4))).2.length
      ≤ size_t (if work.null_terminate then to_int (load_int (blk.take 4) + 1)
          else load_int (blk.take 4))) :
    file_decompress env work =
      if (env.LZ4_decompress_safe
            ((blk.drop 4).take (to_int (size_t ((work.size : Int) - 4))).toNat)
            (to_int (size_t ((work.size : Int) - 4))) (load_int (blk.take 4))).1 > 0 then
        some ({ work with
                  size := size_t (env.LZ4_decompress_safe
                    ((blk.drop 4).take (to_int (size_t ((work.size : Int) - 4))).toNat)
                    (to_int (size_t ((work.size : Int) - 4))) (load_int (blk.take 4))).1
                  buffer := some ((env.LZ4_decompress_safe
                      ((blk.drop 4).take (to_int (size_t ((work.size : Int) - 4))).toNat)
                      (to_int (size_t ((work.size : Int) - 4))) (load_int (blk.take 4))).2 ++
                    (fresh_block env.junk
                      (size_t (if work.null_terminate then to_int (load_int (blk.take 4) + 1)
                        else load_int (blk.take 4)))).drop
                      (env.LZ4_decompress_safe
                        ((blk.drop 4).take (to_int (size_t ((work.size : Int) - 4))).toNat)
                        (to_int (size_t ((work.size : Int) - 4)))
                        (load_int (blk.take 4))).2.length)
                  com_done := true },
              [Effect.heap_alloc work.heap
                 (size_t (if work.null_terminate then to_int (load_int (blk.take 4) + 1)
                   else load_int (blk.take 4))) Obj.buffer_temp,
               Effect.heap_free work.heap Obj.buffer,
               Effect.event_signal Ev.com_done])
      else
        some ({ work with com_done := true },
              [Effect.heap_alloc work.heap
                 (size_t (if work.null_terminate then to_int (load_int (blk.take 4) + 1)
                   else load_int (blk.take 4))) Obj.buffer_temp,
               Effect.heap_free work.heap Obj.buffer_temp,
               Effect.event_signal Ev.com_done]) := by
  have hhd := read_bytes_some blk 0 4 (by omega)
  simp only [List.drop_zero] at hhd
  have hrd := read_bytes_some blk 4 (to_int (size_t ((work.size : Int) - 4))).toNat hsrc
  have hwb := write_bytes_zero
    (fresh_block env.junk (size_t (if work.null_terminate then to_int (load_int (blk.take 4) + 1)
      else load_int (blk.take 4))))
    (env.LZ4_decompress_safe
      ((blk.drop 4).take (to_int (size_t ((work.size : Int) - 4))).toNat)
      (to_int (size_t ((work.size : Int) - 4))) (load_int (blk.take 4))).2
    (by rw [fresh_block_length]; exact hout)
  have halloc := heap_alloc_some env.junk _ hserved
  unfold file_decompress
  simp only [hb, hhd, halloc, hrd, hwb]

/-- A successful `file_write` of an item marked for compression hands
`WriteFile` the first `compression_size` bytes of the buffer. -/
theorem file_write_compressed_eq (work : fs_work_t) (blk : List Nat)
    (hu : work.use_compression = k_fs_work_op_compress) (hb : work.buffer = some blk)
    (hk : work.compression_size < 2 ^ 32) (hfit : work.compression_size ≤ blk.length) :
    file_write write_ok work =
      some ({ work with compression_size := work.compression_size, done := true },
            [Effect.WriteFile (blk.take work.compression_size),
             Effect.heap_free work.heap Obj.buffer,
             Effect.event_signal Ev.done]) := by
  have hrd := read_bytes_some blk 0 work.compression_size (by omega)
  simp only [List.drop_zero] at hrd
  have hlen : (blk.take work.compression_size).length = work.compression_size := by
    simp [hfit]
  simp [file_write, write_ok, hu, hb, DWORD_small _ hk, hrd, hlen]

theorem store_int_natCast (n : Nat) (h : n < 2 ^ 31) :
    store_int (n : Int) = [n % 256, n / 256 % 256, n / 65536 % 256, n / 16777216 % 256] := by
  have hu : ((n : Int) % 2 ^ 32).toNat = n := by omega
  simp only [store_int, hu]

/-- The compressed write of a payload `B` on which the codec succeeds:
`fs_write` returns the item holding the framed buffer, and `file_write` hands
`WriteFile` the header followed by the codec output. -/
theorem compressed_write_eq (env : Env) (fs : fs_t) (path : String) (B : List Nat) (uninit : Nat)
    (hp : path.utf8ByteSize < sizeof_path) (hn : B.length < 2 ^ 31)
    (hc : (env.LZ4_compress_default B B.length B.length).1 ≠ 0)
    (hret : (env.LZ4_compress_default B B.length B.length).1
      = (env.LZ4_compress_default B B.length B.length).2.length)
    (hfit : (env.LZ4_compress_default B B.length B.length).2.length ≤ B.length) :
    ∃ w tr w2, fs_write env fs path (some B) B.length true uninit = some (w, tr) ∧
      w.size = B.length ∧ w.result = 0 ∧
      file_write write_ok w =
        some (w2, [Effect.WriteFile (store_int (B.length : Int) ++
                    (env.LZ4_compress_default B B.length B.length).2),
                   Effect.heap_free fs.heap Obj.buffer,
                   Effect.event_signal Ev.done]) ∧
      w2.result = 0 ∧ w2.done = true ∧ w2.size = B.length ∧
      w.compression_size = 4 + (env.LZ4_compress_default B B.length B.length).2.length ∧
      w.buffer = some (store_int (B.length : Int) ++
        (env.LZ4_compress_default B B.length B.length).2 ++
        (fresh_block env.junk (B.length + 4)).drop
          (4 + (env.LZ4_compress_default B B.length B.length).2.length)) ∧
      Effect.heap_alloc fs.heap (B.length + 4) Obj.buffer_temp ∈ tr := by
  have hti : to_int (B.length : Int) = B.length := to_int_natCast _ hn
  have htk : B.take B.length = B := List.take_length B
  have hcq := file_compress_eq env
    { heap := fs.heap, op := k_fs_work_op_write, path := path, null_terminate := false,
      use_compression := k_fs_work_op_compress, buffer := some B, size := B.length,
      compression_size := uninit, done := false, com_done := false, result := 0, fs := fs }
    B rfl (Nat.le_refl _) (by show B.length + 4 ≤ 2 ^ 63; omega)
    (by simp only [hti, Int.toNat_ofNat, htk]; exact hfit)
  simp only [hti, Int.toNat_ofNat, htk] at hcq
  rw [if_pos hc] at hcq
  have hcs : size_t ((env.LZ4_compress_default B B.length B.length).1 + 4)
      = 4 + (env.LZ4_compress_default B B.length B.length).2.length := by
    rw [hret]; unfold size_t; omega
  rw [hcs] at hcq
  have htake : List.take (4 + (env.LZ4_compress_default B B.length B.length).2.length)
      (store_int (B.length : Int) ++ (env.LZ4_compress_default B B.length B.length).2 ++
        (fresh_block env.junk (B.length + 4)).drop
          (4 + (env.LZ4_compress_default B B.length B.length).2.length))
      = store_int (B.length : Int) ++ (env.LZ4_compress_default B B.length B.length).2 :=
    take_append_at _ _ _ (by simp only [List.length_append, store_int_length])
  obtain ⟨W, hW, hWc, hWu, hWb, hWk, hWs, hWr, hWh⟩ : ∃ W : fs_work_t,
      file_compress env
        { heap := fs.heap, op := k_fs_work_op_write, path := path, null_terminate := false,
          use_compression := k_fs_work_op_compress, buffer := some B, size := B.length,
          compression_size := uninit, done := false, com_done := false, result := 0, fs := fs }
        = some (W, [Effect.heap_alloc fs.heap (B.length + 4) Obj.buffer_temp,
                    Effect.event_signal Ev.com_done]) ∧
      W.com_done = true ∧ W.use_compression = k_fs_work_op_compress ∧
      W.buffer = some (store_int (B.length : Int) ++
        (env.LZ4_compress_default B B.length B.length).2 ++
        (fresh_block env.junk (B.length + 4)).drop
          (4 + (env.LZ4_compress_default B B.length B.length).2.length)) ∧
      W.compression_size = 4 + (env.LZ4_compress_default B B.length B.length).2.length ∧
      W.size = B.length ∧ W.result = 0 ∧ W.heap = fs.heap :=
    ⟨_, hcq, rfl, rfl, rfl, rfl, rfl, rfl, rfl⟩
  have hfw := file_write_compressed_eq W _ hWu hWb (by rw [hWk]; omega) (by
    rw [hWk]
    simp only [List.length_append, store_int_length, List.length_drop, fresh_block_length]
    omega)
  rw [hWk, htake, hWh] at hfw
  exact ⟨W, _, _, fs_write_compress_eq env fs path (some B) B.length uninit _ _ hp hW hWc,
    hWs, hWr, hfw, hWr, rfl, hWs, hWk, hWb, by simp⟩

/-- The decompression stage on a framed block: header `|B|`, then codec bytes
`out` that decompress to the non-empty `B`. -/
theorem file_decompress_framed (env : Env) (item : fs_work_t) (B out tail : List Nat)
    (hB : B ≠ []) (hn : B.length < 2 ^ 31) (hfit : out.length ≤ B.length)
    (hinv : env.LZ4_decompress_safe out out.length B.length = ((B.length : Int), B))
    (hb : item.buffer = some (store_int (B.length : Int) ++ out ++ tail))
    (hs : item.size = 4 + out.length)
    (hroom : item.null_terminate = true → B.length < 2 ^ 31 - 1) :
    ∃ W st blk, file_decompress env item = some (W, st) ∧
      W.com_done = true ∧ W.null_terminate = item.null_terminate ∧
      W.result = item.result ∧ W.size = B.length ∧ W.buffer = some blk ∧
      blk.take B.length = B ∧
      (item.null_terminate = false → blk = B) ∧
      (item.null_terminate = true → B.length < blk.length) := by
  have hpos : 0 < B.length := List.length_pos.mpr hB
  have hcs : to_int (size_t ((item.size : Int) - 4)) = out.length := by
    rw [hs]
    have h1 : size_t (((4 + out.length : Nat) : Int) - 4) = out.length := by
      unfold size_t; omega
    rw [h1]
    exact to_int_natCast _ (by omega)
  have ht4 : (store_int (B.length : Int) ++ out ++ tail).take 4 = store_int (B.length : Int) := by
    rw [List.append_assoc]
    exact take_append_at _ _ 4 (store_int_length _)
  have hd4 : ((store_int (B.length : Int) ++ out ++ tail).drop 4).take out.length = out := by
    rw [List.append_assoc, drop_append_at _ _ 4 (store_int_length _)]
    exact take_append_at _ _ _ rfl
  have hld : load_int (store_int (B.length : Int)) = B.length := load_store_int _ hn
  have hcap := decompress_capacity (B.length : Int) item.null_terminate (by omega) (by omega)
  have hserved := (decompress_capacity_eq (B.length : Int) item.null_terminate (by omega)
    (by omega) (fun hnt => by have := hroom hnt; omega)).2
  have hfd := file_decompress_eq env item (store_int (B.length : Int) ++ out ++ tail) hb
    (by simp only [List.length_append, store_int_length]; omega)
    (by rw [hcs]; simp only [List.length_append, store_int_length, Int.toNat_ofNat]; omega)
    (by rw [ht4, hld]; exact hserved)
    (by
      rw [hcs, Int.toNat_ofNat, hd4, ht4, hld, hinv]
      have := hcap.1
      show B.length ≤ _
      omega)
  rw [hcs, Int.toNat_ofNat, hd4, ht4, hld, hinv] at hfd
  have hgt : ((B.length : Int), B).1 > 0 := by show (B.length : Int) > 0; omega
  rw [if_pos hgt] at hfd
  refine ⟨_, _, _, hfd, rfl, rfl, rfl, size_t_natCast _ (by omega), rfl,
    take_append_at _ _ _ rfl, ?_, ?_⟩
  · intro hnt
    simp only [hnt, Bool.false_eq_true, if_false]
    rw [size_t_natCast _ (by omega)]
    have : (fresh_block env.junk B.length).drop B.length = [] := by
      apply List.drop_eq_nil_of_le
      rw [fresh_block_length]
    show B ++ (fresh_block env.junk B.length).drop B.length = B
    rw [this, List.append_nil]
  · intro hnt
    have h2 := hcap.2 hnt (by omega)
    simp only [List.length_append, List.length_drop, fresh_block_length]
    show B.length < B.length + (_ - B.length)
    omega

/-- What `file_read` hands to its last part when every Win32 call succeeds:
the item holds the bytes `ReadFile` delivered, in a block of the file's size
(plus one with `null_terminate`). -/
theorem file_read_ok_eq (env : Env) (os : ReadOs) (work : fs_work_t)
    (hw : 0 < os.wide) (ho : os.open_err = none) (hs : os.size_err = none)
    (hr : os.read_err = none) (hlen : os.data.length < 2 ^ 63) :
    file_read env os work =
      file_read_finish env
        { work with
            size := DWORD os.data.length
            buffer := some (os.data.take (DWORD os.data.length) ++
              (fresh_block env.junk
                (if work.null_terminate then os.data.length + 1 else os.data.length)).drop
                  (DWORD os.data.length)) }
        [Effect.heap_alloc work.heap
          (if work.null_terminate then os.data.length + 1 else os.data.length) Obj.buffer] := by
  have hw2 : ¬ os.wide ≤ 0 := not_le.mpr hw
  have hd : DWORD os.data.length ≤ os.data.length := DWORD_le _
  have hbl : (os.data.take (DWORD os.data.length)).length = DWORD os.data.length := by
    simp [hd]
  have hcap : size_t (if work.null_terminate then (os.data.length : Int) + 1
      else (os.data.length : Int)) =
      (if work.null_terminate then os.data.length + 1 else os.data.length) := by
    cases work.null_terminate
    · simpa using size_t_natCast _ (by omega)
    · simpa using size_t_natCast_add _ 1 (by omega)
  have hwb := write_bytes_zero
    (fresh_block env.junk (if work.null_terminate then os.data.length + 1 else os.data.length))
    (os.data.take (DWORD os.data.length)) (by
      rw [hbl, fresh_block_length]; split <;> omega)
  have halloc := heap_alloc_some env.junk
    (if work.null_terminate then os.data.length + 1 else os.data.length) (by split <;> omega)
  simp only [file_read, if_neg hw2, ho, hs, hr, hcap, halloc, hwb, hbl]

/-- The end of `file_read` on an item that asks for decompression, in terms of
what the decompression stage returned. -/
theorem file_read_finish_decompress (env : Env) (item W : fs_work_t) (pre st : List Effect)
    (hfd : file_decompress env item = some (W, st))
    (hu : item.use_compression = k_fs_work_op_decompress) (hcd : W.com_done = true) :
    file_read_finish env item pre =
      if W.null_terminate then
        match null_terminate_store W with
        | none => none
        | some w =>
          some ({ w with done := true },
                pre ++ [Effect.queue_push Q.compress_queue] ++ st ++
                  [Effect.event_wait Ev.com_done] ++ [Effect.event_signal Ev.done])
      else
        some ({ W with done := true },
              pre ++ [Effect.queue_push Q.compress_queue] ++ st ++
                [Effect.event_wait Ev.com_done] ++ [Effect.event_signal Ev.done]) := by
  unfold file_read_finish
  simp only [hu, file_compress_func_step, hfd, hcd, if_true]

/-- A decompressing read of a framed file (header `|B|`, then codec bytes that
decompress to the non-empty `B`) ends with `B` in the buffer. -/
theorem decompressing_read_framed (env : Env) (item : fs_work_t) (B out : List Nat)
    (hB : B ≠ []) (hn : B.length < 2 ^ 31) (hfit : out.length ≤ B.length)
    (hinv : env.LZ4_decompress_safe out out.length B.length = ((B.length : Int), B))
    (hu : item.use_compression = k_fs_work_op_decompress)
    (hroom : item.null_terminate = true → B.length < 2 ^ 31 - 1) :
    ∃ r tr blk, file_read env (read_ok (store_int (B.length : Int) ++ out)) item = some (r, tr) ∧
      r.result = item.result ∧ r.done = true ∧ r.size = B.length ∧ r.buffer = some blk ∧
      blk.take B.length = B ∧
      (item.null_terminate = false → blk = B) ∧
      (item.null_terminate = true → blk[B.length]? = some 0) := by
  have hl : (store_int (B.length : Int) ++ out).length = 4 + out.length := by
    simp only [List.length_append, store_int_length]
  have hfr := file_read_ok_eq env (read_ok (store_int (B.length : Int) ++ out)) item
    Int.one_pos rfl rfl rfl (by show (store_int (B.length : Int) ++ out).length < 2 ^ 63; omega)
  have hdata : (read_ok (store_int (B.length : Int) ++ out)).data
      = store_int (B.length : Int) ++ out := rfl
  rw [hdata, hl, DWORD_small _ (by omega), ← hl, List.take_length, hl] at hfr
  rw [hfr]
  obtain ⟨W, st, blk, hfd, hcd, hWn, hWr, hWs, hWb, htk, hplain, hlt⟩ :=
    file_decompress_framed env
      { item with
          size := 4 + out.length
          buffer := some (store_int (B.length : Int) ++ out ++
            (fresh_block env.junk
              (if item.null_terminate then 4 + out.length + 1 else 4 + out.length)).drop
                (4 + out.length)) }
      B out _ hB hn hfit hinv rfl rfl hroom
  rw [file_read_finish_decompress env _ W _ st hfd hu hcd]
  cases hnt : item.null_terminate
  · rw [hnt] at hWn
    rw [hWn, if_neg Bool.false_ne_true]
    exact ⟨_, _, blk, rfl, hWr, rfl, hWs, hWb, htk, fun _ => hplain hnt,
      fun h => by cases h⟩
  · rw [hnt] at hWn
    have hlt2 : W.size < blk.length := by rw [hWs]; exact hlt hnt
    rw [hWn, if_pos rfl, null_terminate_store_eq W blk hWb hlt2]
    refine ⟨_, _, _, rfl, hWr, rfl, hWs, rfl, ?_, ?_, ?_⟩
    · rw [hWs, take_append_at _ _ _ (by simp; omega)]
      exact htk
    · intro h; cases h
    · intro _
      rw [hWs]
      exact getElem?_append_cons_at _ _ _ _ (by simp; omega)

/-- A terminator store that returns stayed inside the block and changed
byte `size` only. -/
theorem null_terminate_store_some (work q : fs_work_t) (h : null_terminate_store work = some q) :
    ∃ b, work.buffer = some b ∧ work.size < b.length ∧
      q = { work with buffer := some (b.take work.size ++ 0 :: b.drop (work.size + 1)) } := by
  unfold null_terminate_store at h
  cases hb : work.buffer with
  | none => rw [hb] at h; cases h
  | some b =>
    rw [hb] at h
    dsimp only at h
    by_cases hlt : work.size + [0].length ≤ b.length
    · have hw : write_bytes b work.size [0]
          = some (b.take work.size ++ [0] ++ b.drop (work.size + [0].length)) := by
        unfold write_bytes; rw [if_pos hlt]
      rw [hw] at h
      dsimp only at h
      refine ⟨b, rfl, hlt, ?_⟩
      simp only [Option.some.injEq] at h
      rw [← h]
      simp
    · have hw : write_bytes b work.size [0] = none := by
        unfold write_bytes; rw [if_neg hlt]
      rw [hw] at h
      cases h

/-- The decompression stage changes `size`, `buffer` and `com_done` only. -/
theorem file_decompress_fields (env : Env) (item W : fs_work_t) (st : List Effect)
    (h : file_decompress env item = some (W, st)) :
    W.null_terminate = item.null_terminate ∧ W.result = item.result ∧ W.done = item.done ∧
      W.com_done = true := by
  unfold file_decompress at h
  split at h
  · cases h
  · dsimp only at h
    split at h
    · cases h
    · split at h
      · cases h
      · split at h
        · cases h
        · split at h
          · cases h; exact ⟨rfl, rfl, rfl, rfl⟩
          · cases h; exact ⟨rfl, rfl, rfl, rfl⟩

/-- The block after the terminator store: same length, byte `k` zero, the first
`k` bytes untouched. -/
theorem terminator_facts (b : List Nat) (k : Nat) (hk : k < b.length) :
    (b.take k ++ 0 :: b.drop (k + 1)).length = b.length ∧
    k < (b.take k ++ 0 :: b.drop (k + 1)).length ∧
    (b.take k ++ 0 :: b.drop (k + 1))[k]? = some 0 ∧
    (b.take k ++ 0 :: b.drop (k + 1)).take k = b.take k := by
  have hlen : (b.take k).length = k := by simp; omega
  have hl : (b.take k ++ 0 :: b.drop (k + 1)).length = b.length := by
    simp only [List.length_append, hlen, List.length_cons, List.length_drop]; omega
  exact ⟨hl, by rw [hl]; exact hk, getElem?_append_cons_at _ _ _ _ hlen,
    take_append_at _ _ _ hlen⟩

/-- Whenever the end of `file_read` returns on an item with `null_terminate`
set, done is raised and the final block is the block the item had just before
the terminator store (after the decompression stage, when there is one) with
byte `size` set to zero. -/
theorem file_read_finish_terminated (env : Env) (item w : fs_work_t) (eff tr : List Effect)
    (h : file_read_finish env item eff = some (w, tr))
    (hnt : item.null_terminate = true) :
    w.done = true ∧
    ∃ pre b blk,
      (item.use_compression = k_fs_work_op_decompress →
        ∃ st, file_decompress env item = some (pre, st)) ∧
      (item.use_compression ≠ k_fs_work_op_decompress → pre = { item with com_done := true }) ∧
      pre.buffer = some b ∧ w.size = pre.size ∧ w.buffer = some blk ∧
      blk.length = b.length ∧ w.size < blk.length ∧ blk[w.size]? = some 0 ∧
      blk.take w.size = b.take w.size := by
  unfold file_read_finish at h
  by_cases hu : item.use_compression = k_fs_work_op_decompress
  · rw [if_pos hu] at h
    simp only [file_compress_func_step, hu] at h
    cases hfd : file_decompress env item with
    | none => rw [hfd] at h; cases h
    | some p =>
      obtain ⟨W, st⟩ := p
      obtain ⟨hWn, _, _, hcd⟩ := file_decompress_fields env item W st hfd
      rw [hfd] at h
      simp only [hcd, hWn, hnt, if_true] at h
      cases hts : null_terminate_store W with
      | none => rw [hts] at h; cases h
      | some q =>
        rw [hts] at h
        obtain ⟨b, hb, hlt, hq⟩ := null_terminate_store_some W q hts
        simp only [Option.some.injEq, Prod.mk.injEq] at h
        obtain ⟨hw, _⟩ := h
        subst hw
        subst hq
        obtain ⟨f1, f2, f3, f4⟩ := terminator_facts b W.size hlt
        exact ⟨rfl, W, b, _, fun _ => ⟨st, rfl⟩, fun hne => absurd hu hne, hb, rfl, rfl,
          f1, f2, f3, f4⟩
  · rw [if_neg hu] at h
    dsimp only at h
    rw [if_pos hnt] at h
    cases hts : null_terminate_store { item with com_done := true } with
    | none => rw [hts] at h; cases h
    | some q =>
      rw [hts] at h
      obtain ⟨b, hb, hlt, hq⟩ := null_terminate_store_some _ q hts
      simp only [Option.some.injEq, Prod.mk.injEq] at h
      obtain ⟨hw, _⟩ := h
      subst hw
      subst hq
      obtain ⟨f1, f2, f3, f4⟩ := terminator_facts b item.size hlt
      exact ⟨rfl, { item with com_done := true }, b, _, fun hd => absurd hd hu, fun _ => rfl,
        hb, rfl, rfl, f1, f2, f3, f4⟩

/-- The end of `file_read` returns on an item with `null_terminate` set whose
block has room for the terminator (and, when decompression is requested, holds
a header whose value `h` has `0 ≤ h < 2^31 - 1`), for a codec that stays inside
its destination. -/
theorem file_read_finish_returns (env : Env) (item : fs_work_t) (eff : List Effect)
    (blk : List Nat) (hnt : item.null_terminate = true) (hb : item.buffer = some blk)
    (hsize : item.size < blk.length) (hcodec : env.decompress_in_bounds)
    (h4 : item.use_compression = k_fs_work_op_decompress →
      4 ≤ blk.length ∧ 0 ≤ load_int (blk.take 4) ∧ load_int (blk.take 4) < 2 ^ 31 - 1) :
    ∃ w tr, file_read_finish env item eff = some (w, tr) := by
  by_cases hu : item.use_compression = k_fs_work_op_decompress
  · have hrange := load_int_range (blk.take 4)
    have hcap := decompress_capacity (load_int (blk.take 4)) item.null_terminate
      hrange.1 hrange.2
    have hserved := (decompress_capacity_eq (load_int (blk.take 4)) item.null_terminate
      (h4 hu).2.1 hrange.2 (fun _ => (h4 hu).2.2)).2
    have hcd := hcodec ((blk.drop 4).take (to_int (size_t ((item.size : Int) - 4))).toNat)
      (to_int (size_t ((item.size : Int) - 4))) (load_int (blk.take 4))
    have hsrc : 4 + (to_int (size_t ((item.size : Int) - 4))).toNat ≤ blk.length := by
      have := (h4 hu).1
      unfold size_t to_int
      split <;> omega
    have hfd := file_decompress_eq env item blk hb (h4 hu).1 hsrc hserved (by
      have h1 := hcd.1
      have h2 := hcap.1
      omega)
    generalize env.LZ4_decompress_safe
      ((blk.drop 4).take (to_int (size_t ((item.size : Int) - 4))).toNat)
      (to_int (size_t ((item.size : Int) - 4))) (load_int (blk.take 4)) = R at hfd hcd
    by_cases hpos : R.1 > 0
    · rw [if_pos hpos] at hfd
      rw [file_read_finish_decompress env item _ eff _ hfd hu rfl]
      dsimp only
      rw [if_pos hnt]
      have hlen : size_t R.1 < (R.2 ++ (fresh_block env.junk
          (size_t (if item.null_terminate then to_int (load_int (blk.take 4) + 1)
            else load_int (blk.take 4)))).drop R.2.length).length := by
        have h1 := hcd.1
        have h2 := hcd.2 hpos
        have h3 := hcap.1
        have h5 := hcap.2 hnt (by omega)
        simp only [List.length_append, List.length_drop, fresh_block_length]
        have h6 : (size_t R.1 : Int) = R.1 := by unfold size_t; omega
        omega
      rw [null_terminate_store_eq _ _ rfl hlen]
      exact ⟨_, _, rfl⟩
    · rw [if_neg hpos] at hfd
      rw [file_read_finish_decompress env item _ eff _ hfd hu rfl]
      dsimp only
      rw [if_pos hnt, null_terminate_store_eq { item with com_done := true } blk hb hsize]
      exact ⟨_, _, rfl⟩
  · unfold file_read_finish
    rw [if_neg hu]
    dsimp only
    rw [if_pos hnt, null_terminate_store_eq { item with com_done := true } blk hb hsize]
    exact ⟨_, _, rfl⟩

theorem DWORD_wrap_example : DWORD 4294967297 = 1 := by decide

/-- A successful `file_write` of an item not marked for compression hands
`WriteFile` the first `(DWORD) size` bytes of the buffer. -/
theorem file_write_plain_eq (work : fs_work_t) (blk : List Nat)
    (hu : work.use_compression = k_fs_work_op_decompress) (hb : work.buffer = some blk)
    (hfit : work.size ≤ blk.length) :
    file_write write_ok work =
      some ({ work with size := DWORD work.size, done := true },
            [Effect.WriteFile (blk.take (DWORD work.size)),
             Effect.event_signal Ev.done]) := by
  have hd := DWORD_le work.size
  have hrd := read_bytes_some blk 0 (DWORD work.size) (by omega)
  simp only [List.drop_zero] at hrd
  have hlen : (blk.take (DWORD work.size)).length = DWORD work.size := by
    simp; omega
  simp [file_write, write_ok, hu, hb, hrd, hlen]

/-- The source length `(int)(size - sizeof(int))` of `file_decompress` for a
size between 4 and `2^31`. -/
theorem source_length_eq (size : Nat) (h4 : 4 ≤ size) (h31 : size < 2 ^ 31) :
    to_int (size_t ((size : Int) - 4)) = ((size - 4 : Nat) : Int) := by
  have h1 : size_t ((size : Int) - 4) = size - 4 := by unfold size_t; omega
  rw [h1]
  exact to_int_natCast _ (by omega)

/-- The equation `file_decompress_eq` for an item of size `s` with
`4 ≤ s < 2^31` whose block holds at least `s` bytes and a header that can be
served: the codec receives the `s - 4` bytes after the header, the length
`s - 4` and the header value. -/
theorem file_decompress_sized_eq (env : Env) (work : fs_work_t) (blk : List Nat)
    (hb : work.buffer = some blk) (h4 : 4 ≤ work.size) (hs : work.size ≤ blk.length)
    (h31 : work.size < 2 ^ 31) (hh0 : 0 ≤ load_int (blk.take 4))
    (hh1 : work.null_terminate = true → load_int (blk.take 4) < 2 ^ 31 - 1)
    (hcodec : env.decompress_in_bounds) :
    file_decompress env work =
      if (env.LZ4_decompress_safe ((blk.drop 4).take (work.size - 4))
            ((work.size - 4 : Nat) : Int) (load_int (blk.take 4))).1 > 0 then
        some ({ work with
                  size := size_t (env.LZ4_decompress_safe ((blk.drop 4).take (work.size - 4))
                    ((work.size - 4 : Nat) : Int) (load_int (blk.take 4))).1
                  buffer := some ((env.LZ4_decompress_safe ((blk.drop 4).take (work.size - 4))
                      ((work.size - 4 : Nat) : Int) (load_int (blk.take 4))).2 ++
                    (fresh_block env.junk
                      (size_t (if work.null_terminate then to_int (load_int (blk.take 4) + 1)
                        else load_int (blk.take 4)))).drop
                      (env.LZ4_decompress_safe ((blk.drop 4).take (work.size - 4))
                        ((work.size - 4 : Nat) : Int) (load_int (blk.take 4))).2.length)
                  com_done := true },
              [Effect.heap_alloc work.heap
                 (size_t (if work.null_terminate then to_int (load_int (blk.take 4) + 1)
                   else load_int (blk.take 4))) Obj.buffer_temp,
               Effect.heap_free work.heap Obj.buffer,
               Effect.event_signal Ev.com_done])
      else
        some ({ work with com_done := true },
              [Effect.heap_alloc work.heap
                 (size_t (if work.null_terminate then to_int (load_int (blk.take 4) + 1)
                   else load_int (blk.take 4))) Obj.buffer_temp,
               Effect.heap_free work.heap Obj.buffer_temp,
               Effect.event_signal Ev.com_done]) := by
  have hcs := source_length_eq work.size h4 h31
  have hrange := load_int_range (blk.take 4)
  have hcap := decompress_capacity (load_int (blk.take 4)) work.null_terminate
    hrange.1 hrange.2
  have hcd := hcodec ((blk.drop 4).take (work.size - 4)) ((work.size - 4 : Nat) : Int)
    (load_int (blk.take 4))
  have hfd := file_decompress_eq env work blk hb (by omega)
    (by rw [hcs, Int.toNat_ofNat]; omega)
    (decompress_capacity_eq (load_int (blk.take 4)) work.null_terminate hh0 hrange.2 hh1).2
    (by
      rw [hcs, Int.toNat_ofNat]
      have h1 := hcd.1
      have h2 := hcap.1
      omega)
  rw [hcs, Int.toNat_ofNat] at hfd
  exact hfd

/-- Whatever `file_compress` returns satisfies `stage_frame`. -/
theorem file_compress_frame (env : Env) (work w : fs_work_t) (st : List Effect)
    (h : file_compress env work = some (w, st)) : stage_frame work w st := by
  unfold file_compress at h
  dsimp only at h
  split at h
  · cases h
  · split at h
    · cases h
    · split at h
      · cases h
      · split at h
        · split at h
          · cases h
          · cases h
            exact ⟨rfl, by simp, by simp, rfl, rfl, rfl, rfl, rfl, rfl⟩
        · cases h
          exact ⟨rfl, by simp, by simp, rfl, rfl, rfl, rfl, rfl, rfl⟩

/-- Whatever `file_decompress` returns satisfies `stage_frame`. -/
theorem file_decompress_frame (env : Env) (work w : fs_work_t) (st : List Effect)
    (h : file_decompress env work = some (w, st)) : stage_frame work w st := by
  unfold file_decompress at h
  split at h
  · cases h
  · dsimp only at h
    split at h
    · cases h
    · split at h
      · cases h
      · split at h
        · cases h
        · split at h
          · cases h
            exact ⟨rfl, by simp, by simp, rfl, rfl, rfl, rfl, rfl, rfl⟩
          · cases h
            exact ⟨rfl, by simp, by simp, rfl, rfl, rfl, rfl, rfl, rfl⟩

/-- The decompression stage returns on an item whose block holds `size` bytes
and a header whose value `h` has `0 ≤ h` (and `h < 2^31 - 1` when
`null_terminate` is set), for a decompressor that stays inside its
destination. -/
theorem file_decompress_returns (env : Env) (work : fs_work_t) (blk : List Nat)
    (hb : work.buffer = some blk) (h4 : 4 ≤ blk.length) (hs : work.size ≤ blk.length)
    (hh0 : 0 ≤ load_int (blk.take 4))
    (hh1 : work.null_terminate = true → load_int (blk.take 4) < 2 ^ 31 - 1)
    (hcodec : env.decompress_in_bounds) :
    ∃ w st, file_decompress env work = some (w, st) := by
  have hrange := load_int_range (blk.take 4)
  have hcap := decompress_capacity (load_int (blk.take 4)) work.null_terminate
    hrange.1 hrange.2
  have hcd := hcodec ((blk.drop 4).take (to_int (size_t ((work.size : Int) - 4))).toNat)
    (to_int (size_t ((work.size : Int) - 4))) (load_int (blk.take 4))
  have hsrc : 4 + (to_int (size_t ((work.size : Int) - 4))).toNat ≤ blk.length := by
    unfold size_t to_int
    split <;> omega
  have hfd := file_decompress_eq env work blk hb h4 hsrc
    (decompress_capacity_eq (load_int (blk.take 4)) work.null_terminate hh0 hrange.2 hh1).2 (by
    have h1 := hcd.1
    have h2 := hcap.1
    omega)
  by_cases hpos : (env.LZ4_decompress_safe
      ((blk.drop 4).take (to_int (size_t ((work.size : Int) - 4))).toNat)
      (to_int (size_t ((work.size : Int) - 4))) (load_int (blk.take 4))).1 > 0
  · rw [if_pos hpos] at hfd
    exact ⟨_, _, hfd⟩
  · rw [if_neg hpos] at hfd
    exact ⟨_, _, hfd⟩

/-- The worker loop of the file thread on a queue whose items before the first
sentinel all have a handler result. -/
theorem file_thread_func_eq (env : Env) (post : List (Option (fs_work_t × ReadOs × WriteOs))) :
    ∀ (pre : List (fs_work_t × ReadOs × WriteOs)) (results : List (fs_work_t × List Effect)),
      List.Forall₂ (fun item r => file_thread_func_step env item.2.1 item.2.2 item.1 = some r)
        pre results →
      file_thread_func env (pre.map some ++ none :: post) = some (0, results) := by
  intro pre
  induction pre with
  | nil =>
    intro results h
    cases h
    rfl
  | cons item pre ih =>
    intro results h
    cases h with
    | cons hstep htail =>
      obtain ⟨w, ros, wos⟩ := item
      dsimp only at hstep
      rw [List.map_cons, List.cons_append, file_thread_func, hstep, ih _ htail]

/-- The worker loop of the compression thread, in the same way. -/
theorem file_compress_func_eq (env : Env) (post : List (Option fs_work_t)) :
    ∀ (pre : List fs_work_t) (results : List (fs_work_t × List Effect)),
      List.Forall₂ (fun work r => file_compress_func_step env work = some r) pre results →
      file_compress_func env (pre.map some ++ none :: post) = some (0, results) := by
  intro pre
  induction pre with
  | nil =>
    intro results h
    cases h
    rfl
  | cons work pre ih =>
    intro results h
    cases h with
    | cons hstep htail =>
      rw [List.map_cons, List.cons_append, file_compress_func, hstep, ih _ htail]

/-! ## The sample codec -/

theorem sample_compress_in_bounds : sample_env.compress_in_bounds := by
  intro src n cap
  show (((sample_compress src n cap).2.length : Nat) : Int) ≤ max cap 0
  unfold sample_compress
  dsimp only
  split
  · rename_i h
    exact le_trans h (le_max_left _ _)
  · simp

theorem zero_run_le (src : List Nat) : zero_run src ≤ 255 := by
  induction src with
  | nil => simp [zero_run]
  | cons x rest ih =>
    cases x with
    | zero => simp only [zero_run]; split <;> omega
    | succ x => simp [zero_run]

theorem zero_run_take (src : List Nat) :
    ∀ k, k ≤ zero_run src → src.take k = List.replicate k 0 := by
  induction src with
  | nil =>
    intro k hk
    simp only [zero_run, Nat.le_zero] at hk
    simp [hk]
  | cons x rest ih =>
    intro k hk
    cases k with
    | zero => simp
    | succ k =>
      cases x with
      | zero =>
        have hle := zero_run_le rest
        have hk2 : k ≤ zero_run rest := by
          simp only [zero_run] at hk
          split at hk <;> omega
        simp [List.replicate_succ, ih k hk2]
      | succ x => simp [zero_run] at hk

theorem zero_run_spec (src : List Nat) :
    List.replicate (zero_run src) 0 ++ src.drop (zero_run src) = src := by
  rw [← zero_run_take src _ (Nat.le_refl _)]
  exact List.take_append_drop _ _

theorem sample_env_inverts : sample_env.inverts := by
  intro src cap hc
  have hspec := zero_run_spec src
  have hlen : (List.replicate (zero_run src) 0 ++ src.drop (zero_run src)).length = src.length := by
    rw [hspec]
  by_cases hfit : (((zero_run src :: src.drop (zero_run src)).length : Nat) : Int) ≤ cap
  · have hcomp : sample_env.LZ4_compress_default src src.length cap
        = ((((zero_run src :: src.drop (zero_run src)).length : Nat) : Int),
            zero_run src :: src.drop (zero_run src)) := by
      show sample_compress src src.length cap = _
      unfold sample_compress
      dsimp only
      rw [if_pos hfit]
    rw [hcomp]
    refine ⟨rfl, hfit, ?_⟩
    show sample_decompress (zero_run src :: src.drop (zero_run src))
      (((zero_run src :: src.drop (zero_run src)).length : Nat) : Int) (src.length : Int)
      = ((src.length : Int), src)
    unfold sample_decompress
    dsimp only
    rw [if_pos (by rw [hlen])]
    rw [hlen, hspec]
  · exfalso
    apply hc
    show (sample_compress src src.length cap).1 = 0
    unfold sample_compress
    dsimp only
    rw [if_neg hfit]

theorem sample_decompress_in_bounds : sample_env.decompress_in_bounds := by
  intro src n cap
  show ((sample_decompress src n cap).2.length : Int) ≤ max cap 0 ∧
    (0 < (sample_decompress src n cap).1 → (sample_decompress src n cap).1 ≤ cap)
  unfold sample_decompress
  split
  · simp
  · dsimp only
    split
    · rename_i h
      exact ⟨le_trans h (le_max_left _ _), fun _ => h⟩
    · simp

/-! ## Failure paths of the file worker -/

/-- C1 (code defect): when a Win32 call of `file_read` fails, the file worker's
step on a read item stores a non-zero result code and pushes nothing onto the
compression queue, but it returns without `event_signal (done)`: the done
signal keeps the state it had, and no effect raises it. -/
theorem file_read_failure_returns_without_done (env : Env) (ros : ReadOs) (wos : WriteOs)
    (work : fs_work_t) (hop : work.op = k_fs_work_op_read)
    (hfail : ros.fails) (hcodes : ros.codes_nonzero) :
    ∃ w tr, file_thread_func_step env ros wos work = some (w, tr) ∧
      w.result ≠ 0 ∧
      Effect.queue_push Q.compress_queue ∉ tr ∧
      w.done = work.done ∧
      Effect.event_signal Ev.done ∉ tr := by
  obtain ⟨h1, h2, h3⟩ := hcodes
  simp only [file_thread_func_step, hop, file_read]
  by_cases hw : ros.wide ≤ 0
  · rw [if_pos hw]
    exact ⟨_, _, rfl, by simp⟩
  · rw [if_neg hw]
    rcases ho : ros.open_err with _ | e
    · rcases hs : ros.size_err with _ | e
      · rcases hr : ros.read_err with _ | e
        · exact absurd hfail (by simp [ReadOs.fails, hw, ho, hs, hr])
        · have : e ≠ 0 := fun h => h3 (by rw [hr, h])
          exact ⟨_, _, rfl, by simp [this]⟩
      · have : e ≠ 0 := fun h => h2 (by rw [hs, h])
        exact ⟨_, _, rfl, by simp [this]⟩
    · have : e ≠ 0 := fun h => h1 (by rw [ho, h])
      exact ⟨_, _, rfl, by simp [this]⟩

/-- Witness for C1: a read of a path that does not exist
(`ERROR_FILE_NOT_FOUND` = 2). -/
theorem file_read_failure_returns_without_done_witness :
    ∃ w tr, file_thread_func_step sample_env
        { wide := 1, open_err := some 2, size_err := none, read_err := none, data := [] }
        write_ok sample_read_item = some (w, tr) ∧
      w.result ≠ 0 ∧
      Effect.queue_push Q.compress_queue ∉ tr ∧
      w.done = sample_read_item.done ∧
      Effect.event_signal Ev.done ∉ tr :=
  file_read_failure_returns_without_done sample_env
    { wide := 1, open_err := some 2, size_err := none, read_err := none, data := [] }
    write_ok sample_read_item rfl
    (by simp [ReadOs.fails]) (by simp [ReadOs.codes_nonzero])

/-- C2 (code defect): when a Win32 call of `file_write` fails, the item keeps its
buffer and size and gets a non-zero result code, but `file_write` returns with
no effect at all: `event_signal (done)` is not reached and the done signal
keeps the state it had. -/
theorem file_write_failure_returns_without_done (env : Env) (ros : ReadOs) (wos : WriteOs)
    (work : fs_work_t) (hop : work.op = k_fs_work_op_write)
    (hfail : wos.fails) (hcodes : wos.codes_nonzero) :
    ∃ w, file_thread_func_step env ros wos work = some (w, []) ∧
      w.result ≠ 0 ∧
      w.buffer = work.buffer ∧ w.size = work.size ∧
      w.done = work.done := by
  obtain ⟨h1, h2⟩ := hcodes
  simp only [file_thread_func_step, hop, file_write]
  by_cases hw : wos.wide ≤ 0
  · rw [if_pos hw]
    exact ⟨_, rfl, by simp⟩
  · rw [if_neg hw]
    rcases ho : wos.open_err with _ | e
    · rcases hr : wos.write_err with _ | e
      · exact absurd hfail (by simp [WriteOs.fails, hw, ho, hr])
      · have : e ≠ 0 := fun h => h2 (by rw [hr, h])
        by_cases hc : work.use_compression = k_fs_work_op_compress
        · rw [if_pos hc]
          exact ⟨_, rfl, by simp [this]⟩
        · rw [if_neg hc]
          exact ⟨_, rfl, by simp [this]⟩
    · have : e ≠ 0 := fun h => h1 (by rw [ho, h])
      exact ⟨_, rfl, by simp [this]⟩

/-- Witness for C2: an uncompressed write whose `CreateFile` is refused
(`ERROR_ACCESS_DENIED` = 5). -/
theorem file_write_failure_returns_without_done_witness :
    ∃ w, file_thread_func_step sample_env (read_ok [])
        { wide := 1, open_err := some 5, write_err := none }
        { heap := 1, op := k_fs_work_op_write, path := "out.bin", null_terminate := false,
          use_compression := k_fs_work_op_decompress, buffer := some [1, 2, 3], size := 3,
          compression_size := 0, done := false, com_done := true, result := 0,
          fs := { heap := 1 } } = some (w, []) ∧
      w.result ≠ 0 ∧
      w.buffer = some [1, 2, 3] ∧ w.size = 3 ∧
      w.done = false :=
  file_write_failure_returns_without_done sample_env (read_ok []) _ _ rfl
    (by simp [WriteOs.fails]) (by simp [WriteOs.codes_nonzero])

/-- C6 (code defect): for a read item made by `fs_read` (the path fitting the
item's path array) whose `CreateFile` fails with code `e`, `file_read` stores
`e`, leaves `buffer = NULL` and `size = 0`, and leaves the done signal unraised;
the three getters wait on that signal and so never return a value (`none`). -/
theorem fs_read_open_failure_getters_never_return (env : Env) (os : ReadOs) (fs : fs_t)
    (path : String) (heap : Nat) (null_terminate use_compression : Bool) (uninit : Nat) (e : Int)
    (hp : path.utf8ByteSize < sizeof_path)
    (hw : 0 < os.wide) (ho : os.open_err = some e) (he : e ≠ 0) :
    ∃ item tr, fs_read fs path heap null_terminate use_compression uninit = some (item, tr) ∧
      ∃ w, file_read env os item = some (w, []) ∧
        w.result ≠ 0 ∧ w.buffer = none ∧ w.size = 0 ∧ w.done = false ∧
        fs_work_get_result (some w) = none ∧
        fs_work_get_buffer (some w) = none ∧
        fs_work_get_size (some w) = none := by
  have hw2 : ¬ os.wide ≤ 0 := not_le.mpr hw
  refine ⟨_, _, fs_read_eq fs path heap null_terminate use_compression uninit hp, ?_⟩
  simp only [file_read, if_neg hw2, ho]
  exact ⟨_, rfl, by
    simp [he, fs_work_get_result, fs_work_get_buffer, fs_work_get_size, fs_work_wait]⟩

/-- Witness for C6: a read of a path that does not exist. -/
theorem fs_read_open_failure_getters_never_return_witness :
    ∃ item tr, fs_read { heap := 1 } "missing.txt" 1 true false 0 = some (item, tr) ∧
      ∃ w, file_read sample_env
          { wide := 12, open_err := some 2, size_err := none, read_err := none, data := [] }
          item = some (w, []) ∧
        w.result ≠ 0 ∧ w.buffer = none ∧ w.size = 0 ∧ w.done = false ∧
        fs_work_get_result (some w) = none ∧
        fs_work_get_buffer (some w) = none ∧
        fs_work_get_size (some w) = none :=
  fs_read_open_failure_getters_never_return sample_env
    { wide := 12, open_err := some 2, size_err := none, read_err := none, data := [] }
    { heap := 1 } "missing.txt" 1 true false 0 2 (by decide) (by decide) rfl (by decide)

/-! ## Plain reads and read submission -/

/-- C8: a read item without decompression whose Win32 calls all succeed ends
with its result code untouched (0 for a submitted item), `size` equal to the
number of bytes `ReadFile` delivered, those bytes in `buffer[0..size)`, both
signals raised, and exactly three effects: the buffer allocation, the stage
signal and the done signal (so nothing reaches the compression queue). -/
theorem file_read_plain_success (env : Env) (os : ReadOs) (work : fs_work_t)
    (hplain : work.use_compression = k_fs_work_op_compress)
    (hw : 0 < os.wide) (ho : os.open_err = none) (hs : os.size_err = none)
    (hr : os.read_err = none) (hlen : os.data.length < 2 ^ 63) :
    ∃ w block, file_read env os work =
        some (w, [Effect.heap_alloc work.heap
                    (if work.null_terminate then os.data.length + 1 else os.data.length)
                    Obj.buffer,
                  Effect.event_signal Ev.com_done,
                  Effect.event_signal Ev.done]) ∧
      w.result = work.result ∧
      w.size = DWORD os.data.length ∧
      w.buffer = some block ∧
      block.take w.size = os.data.take w.size ∧
      w.com_done = true ∧ w.done = true := by
  have hd : DWORD os.data.length ≤ os.data.length := DWORD_le _
  have hbl : (os.data.take (DWORD os.data.length)).length = DWORD os.data.length := by
    simp [hd]
  rw [file_read_ok_eq env os work hw ho hs hr hlen]
  cases hnt : work.null_terminate
  · simp only [file_read_finish, hplain, hnt, Bool.false_eq_true, if_false, reduceCtorEq]
    refine ⟨_, _, rfl, rfl, rfl, rfl, ?_, rfl, rfl⟩
    exact take_append_at _ _ _ hbl
  · simp only [file_read_finish, hplain, hnt, if_true, if_false, reduceCtorEq]
    rw [null_terminate_store_eq _ _ rfl (by
      simp only [List.length_append, hbl, List.length_drop, fresh_block_length]; omega)]
    refine ⟨_, _, rfl, rfl, rfl, rfl, ?_, rfl, rfl⟩
    simp only []
    rw [take_append_at _ _ _ hbl]
    exact take_append_at _ _ _ hbl

/-- Witness for C8: a three-byte file read into a null-terminated buffer. -/
theorem file_read_plain_success_witness :
    ∃ w block, file_read sample_env (read_ok [104, 105, 33])
        { heap := 2, op := k_fs_work_op_read, path := "config.txt", null_terminate := true,
          use_compression := k_fs_work_op_compress, buffer := none, size := 0,
          compression_size := 0, done := false, com_done := false, result := 0,
          fs := { heap := 1 } } =
        some (w, [Effect.heap_alloc 2 (if true then 3 + 1 else 3) Obj.buffer,
                  Effect.event_signal Ev.com_done,
                  Effect.event_signal Ev.done]) ∧
      w.result = 0 ∧
      w.size = DWORD 3 ∧
      w.buffer = some block ∧
      block.take w.size = [104, 105, 33].take w.size ∧
      w.com_done = true ∧ w.done = true :=
  file_read_plain_success sample_env (read_ok [104, 105, 33])
    { heap := 2, op := k_fs_work_op_read, path := "config.txt", null_terminate := true,
      use_compression := k_fs_work_op_compress, buffer := none, size := 0,
      compression_size := 0, done := false, com_done := false, result := 0,
      fs := { heap := 1 } } rfl (by decide) rfl rfl rfl (by decide)

/-- Where `file_read_finish` returns, the compression queue received the item
exactly when the item asks for decompression. -/
theorem file_read_finish_push_iff (env : Env) (work w : fs_work_t) (pre tr : List Effect)
    (hpre : Effect.queue_push Q.compress_queue ∉ pre)
    (h : file_read_finish env work pre = some (w, tr)) :
    Effect.queue_push Q.compress_queue ∈ tr ↔ work.use_compression = k_fs_work_op_decompress := by
  unfold file_read_finish at h
  by_cases hc : work.use_compression = k_fs_work_op_decompress
  · rw [if_pos hc] at h
    simp only [hc, iff_true]
    dsimp only at h
    split at h
    · cases h
    · split at h
      · split at h
        · split at h
          · cases h
          · cases h; simp
        · cases h; simp
      · cases h
  · rw [if_neg hc] at h
    simp only [hc, iff_false]
    dsimp only at h
    split at h
    · split at h
      · cases h
      · cases h; simpa using hpre
    · cases h; simpa using hpre

/-- C9, counterexample: for a path of 1024 bytes `strcpy_s` cannot store the
path and its terminator in `work->path`: `fs_read` does not return, and no item
is created or pushed. -/
theorem fs_read_long_path_never_returns :
    long_path.utf8ByteSize = 1024 ∧
    fs_read { heap := 1 } long_path 1 false false 0 = none := by
  refine ⟨long_path_size, ?_⟩
  unfold fs_read
  rw [if_neg long_path_too_long]

/-- C9, amended: for a path of fewer than 1024 bytes `fs_read` returns a Read
item with the given path, the destination heap, `buffer = NULL`, `size = 0`,
`result = 0`, the caller's `null_terminate`, both signals unraised, and the
intent `decompress` exactly when `use_compression` is true; its effects are the
creation of the item and one push onto the file queue (no push onto the
compression queue, no signal raised).  On a readable file the file worker
hands the item to the compression queue exactly when `use_compression` was
true. -/
theorem fs_read_submission (fs : fs_t) (path : String) (heap : Nat)
    (null_terminate use_compression : Bool) (uninit : Nat)
    (hp : path.utf8ByteSize < sizeof_path) :
    ∃ item tr, fs_read fs path heap null_terminate use_compression uninit = some (item, tr) ∧
      item.op = k_fs_work_op_read ∧
      item.path = path ∧
      item.heap = heap ∧
      item.buffer = none ∧
      item.size = 0 ∧
      item.result = 0 ∧
      item.null_terminate = null_terminate ∧
      item.done = false ∧
      item.com_done = false ∧
      (item.use_compression = k_fs_work_op_decompress ↔ use_compression = true) ∧
      tr = created fs ++ [Effect.queue_push Q.file_queue] ∧
      tr.count (Effect.queue_push Q.file_queue) = 1 ∧
      Effect.queue_push Q.compress_queue ∉ tr ∧
      (∀ e, Effect.event_signal e ∉ tr) ∧
      (∀ (env : Env) (os : ReadOs) (w : fs_work_t) (tr2 : List Effect),
        0 < os.wide → os.open_err = none → os.size_err = none → os.read_err = none →
        os.data.length < 2 ^ 63 →
        file_read env os item = some (w, tr2) →
        (Effect.queue_push Q.compress_queue ∈ tr2 ↔ use_compression = true)) := by
  refine ⟨_, _, fs_read_eq fs path heap null_terminate use_compression uninit hp,
    rfl, rfl, rfl, rfl, rfl, rfl, rfl, rfl, rfl, ?_, rfl, ?_, ?_, ?_, ?_⟩
  · cases use_compression <;> simp
  · simp [created]
  · simp [created]
  · intro e
    simp [created]
  · intro env os w tr2 hw ho hs hr hlen h
    rw [file_read_ok_eq env os _ hw ho hs hr hlen] at h
    rw [file_read_finish_push_iff env _ w _ tr2 (by simp) h]
    cases use_compression <;> simp

/-- Witness for C9: the submission of a decompressing read of `save.bin`. -/
theorem fs_read_submission_witness :
    ∃ item tr, fs_read { heap := 1 } "save.bin" 2 false true 0 = some (item, tr) ∧
      item.op = k_fs_work_op_read ∧ item.path = "save.bin" ∧ item.heap = 2 :=
  (fs_read_submission { heap := 1 } "save.bin" 2 false true 0 (by decide)).elim
    fun item h => h.elim fun tr h2 => ⟨item, tr, h2.1, h2.2.1, h2.2.2.1, h2.2.2.2.1⟩

/-! ## Write submission -/

/-- C10, counterexample: for a path of 1024 bytes `strcpy_s` cannot store the
path and its terminator in `work->path`: `fs_write` does not return, and the
item is pushed onto no queue. -/
theorem fs_write_long_path_never_returns :
    long_path.utf8ByteSize = 1024 ∧
    fs_write sample_env { heap := 1 } long_path (some [1, 2, 3]) 3 false 0 = none ∧
    fs_write sample_env { heap := 1 } long_path (some [1, 2, 3]) 3 true 0 = none := by
  refine ⟨long_path_size, ?_, ?_⟩
  · unfold fs_write
    rw [if_neg long_path_too_long]
  · unfold fs_write
    rw [if_neg long_path_too_long]

/-- C10, amended: for a path of fewer than 1024 bytes (and a buffer that holds
`size` bytes, `size + 4 ≤ 2^63`, with a compressor that stays inside its
destination) `fs_write` returns and pushes the item onto the file queue exactly
once, as its last effect, after the stage signal was raised.  Without
compression the signal is raised by `fs_write` itself and the compression queue
is never used.  With compression the item is pushed once onto the compression
queue, the compression worker's stage (which raises the signal and pushes
nothing) follows, and only then come the wait on the stage signal and the push
onto the file queue. -/
theorem fs_write_ordering (env : Env) (fs : fs_t) (path : String) (blk : List Nat) (size : Nat)
    (use_compression : Bool) (uninit : Nat)
    (hp : path.utf8ByteSize < sizeof_path)
    (hsize : size ≤ blk.length) (hsz : size + 4 ≤ 2 ^ 63) (hcodec : env.compress_in_bounds) :
    ∃ w tr, fs_write env fs path (some blk) size use_compression uninit = some (w, tr) ∧
      w.com_done = true ∧
      tr.count (Effect.queue_push Q.file_queue) = 1 ∧
      tr.count (Effect.queue_push Q.compress_queue) = (if use_compression then 1 else 0) ∧
      (∃ before, tr = before ++ [Effect.queue_push Q.file_queue] ∧
        Effect.event_signal Ev.com_done ∈ before) ∧
      (use_compression = false →
        tr = created fs ++ [Effect.event_signal Ev.com_done, Effect.queue_push Q.file_queue]) ∧
      (use_compression = true →
        ∃ stage, tr = created fs ++ [Effect.queue_push Q.compress_queue] ++ stage ++
            [Effect.event_wait Ev.com_done, Effect.queue_push Q.file_queue] ∧
          Effect.event_signal Ev.com_done ∈ stage ∧
          (∀ q, Effect.queue_push q ∉ stage) ∧
          Effect.event_wait Ev.com_done ∉ stage) := by
  cases use_compression
  · refine ⟨_, _, fs_write_plain_eq env fs path (some blk) size uninit hp, rfl, ?_, ?_,
      ⟨created fs ++ [Effect.event_signal Ev.com_done], ?_, ?_⟩, fun _ => rfl, ?_⟩
    · simp [created]
    · simp [created]
    · simp
    · simp
    · intro h; cases h
  · obtain ⟨w, st, hfc, hcd, hst⟩ := file_compress_stage env
      { heap := fs.heap, op := k_fs_work_op_write, path := path, null_terminate := false,
        use_compression := k_fs_work_op_compress, buffer := some blk, size := size,
        compression_size := uninit, done := false, com_done := false, result := 0, fs := fs }
      blk rfl hsize hsz hcodec
    refine ⟨w, _, fs_write_compress_eq env fs path (some blk) size uninit w st hp hfc hcd, hcd,
      ?_, ?_, ⟨created fs ++ [Effect.queue_push Q.compress_queue] ++ st ++
        [Effect.event_wait Ev.com_done], ?_, ?_⟩, ?_, ?_⟩
    · rcases hst with rfl | rfl <;> simp [created]
    · rcases hst with rfl | rfl <;> simp [created]
    · simp
    · rcases hst with rfl | rfl <;> simp
    · intro h; cases h
    · intro _
      refine ⟨st, rfl, ?_, ?_, ?_⟩
      · rcases hst with rfl | rfl <;> simp
      · rcases hst with rfl | rfl <;> simp
      · rcases hst with rfl | rfl <;> simp

/-- Witness for C10: a compressed write of five bytes with the sample codec. -/
theorem fs_write_ordering_witness :
    ∃ w tr, fs_write sample_env { heap := 1 } "save.bin" (some [0, 0, 0, 7, 7]) 5 true 0
        = some (w, tr) ∧
      w.com_done = true ∧
      tr.count (Effect.queue_push Q.file_queue) = 1 ∧
      tr.count (Effect.queue_push Q.compress_queue) = (if true then 1 else 0) ∧
      (∃ before, tr = before ++ [Effect.queue_push Q.file_queue] ∧
        Effect.event_signal Ev.com_done ∈ before) ∧
      (true = false →
        tr = created { heap := 1 } ++
          [Effect.event_signal Ev.com_done, Effect.queue_push Q.file_queue]) ∧
      (true = true →
        ∃ stage, tr = created { heap := 1 } ++ [Effect.queue_push Q.compress_queue] ++ stage ++
            [Effect.event_wait Ev.com_done, Effect.queue_push Q.file_queue] ∧
          Effect.event_signal Ev.com_done ∈ stage ∧
          (∀ q, Effect.queue_push q ∉ stage) ∧
          Effect.event_wait Ev.com_done ∉ stage) :=
  fs_write_ordering sample_env { heap := 1 } "save.bin" [0, 0, 0, 7, 7] 5 true 0
    (by decide) (by decide) (by decide) sample_compress_in_bounds

/-! ## Compressed writes -/

/-- C5: when the codec compresses the `n`-byte payload `B` (`n < 2^31`) to
`c > 0` bytes inside the capacity `n`, the compressed write (of an item whose
path fitted its array) hands `WriteFile` exactly `4 + c` bytes: `n` as a 4-byte
little-endian integer, followed by the `c` bytes the codec produced. -/
theorem compressed_write_format (env : Env) (fs : fs_t) (path : String) (B : List Nat)
    (uninit : Nat) (hp : path.utf8ByteSize < sizeof_path) (hn : B.length < 2 ^ 31)
    (hc : 0 < (env.LZ4_compress_default B B.length B.length).1)
    (hret : (env.LZ4_compress_default B B.length B.length).1
      = (env.LZ4_compress_default B B.length B.length).2.length)
    (hfit : (env.LZ4_compress_default B B.length B.length).2.length ≤ B.length) :
    ∃ w tr w2 bytes,
      fs_write env fs path (some B) B.length true uninit = some (w, tr) ∧
      file_write write_ok w =
        some (w2, [Effect.WriteFile bytes,
                   Effect.heap_free fs.heap Obj.buffer,
                   Effect.event_signal Ev.done]) ∧
      (bytes.length : Int) = 4 + (env.LZ4_compress_default B B.length B.length).1 ∧
      bytes.take 4 = [B.length % 256, B.length / 256 % 256, B.length / 65536 % 256,
                      B.length / 16777216 % 256] ∧
      bytes.drop 4 = (env.LZ4_compress_default B B.length B.length).2 := by
  obtain ⟨w, tr, w2, h1, _, _, h2, _⟩ :=
    compressed_write_eq env fs path B uninit hp hn (ne_of_gt hc) hret hfit
  refine ⟨w, tr, w2, _, h1, h2, ?_, ?_, ?_⟩
  · rw [hret]
    simp only [List.length_append, store_int_length]
    push_cast
    ring
  · rw [take_append_at _ _ 4 (store_int_length _)]
    exact store_int_natCast _ hn
  · exact drop_append_at _ _ 4 (store_int_length _)

/-- Witness for C5: `[0, 0, 0, 7, 7]` is compressed to `[3, 7, 7]` by the sample
codec. -/
theorem compressed_write_format_witness :
    ∃ w tr w2 bytes,
      fs_write sample_env { heap := 1 } "save.bin" (some [0, 0, 0, 7, 7])
        [0, 0, 0, 7, 7].length true 0 = some (w, tr) ∧
      file_write write_ok w =
        some (w2, [Effect.WriteFile bytes,
                   Effect.heap_free 1 Obj.buffer,
                   Effect.event_signal Ev.done]) ∧
      (bytes.length : Int) = 4 + (sample_compress [0, 0, 0, 7, 7] 5 5).1 ∧
      bytes.take 4 = [5 % 256, 5 / 256 % 256, 5 / 65536 % 256, 5 / 16777216 % 256] ∧
      bytes.drop 4 = (sample_compress [0, 0, 0, 7, 7] 5 5).2 :=
  compressed_write_format sample_env { heap := 1 } "save.bin" [0, 0, 0, 7, 7] 0
    (by decide) (by decide) (by decide) (by decide) (by decide)

/-- C4 (code defect): on a payload the codec cannot compress, `file_compress`
leaves buffer and size untouched and never sets `compression_size`; `file_write`
still takes its byte count from `compression_size`.  With the sample codec and
the incompressible six bytes `[2, 0, 0, 0, 1, 7]`: when the unset field happens
to hold 3, `WriteFile` receives three bytes instead of six; when it holds 0, it
receives none. -/
theorem fallback_write_uses_unset_count :
    (sample_compress [2, 0, 0, 0, 1, 7] 6 6).1 = 0 ∧
    (∃ w tr, fs_write sample_env { heap := 1 } "save.bin" (some [2, 0, 0, 0, 1, 7]) 6 true 3
        = some (w, tr) ∧
      w.buffer = some [2, 0, 0, 0, 1, 7] ∧ w.size = 6 ∧ w.compression_size = 3 ∧
      ∃ w2 tr2, file_write write_ok w = some (w2, tr2) ∧ written tr2 = some [2, 0, 0]) ∧
    (∃ w tr, fs_write sample_env { heap := 1 } "save.bin" (some [2, 0, 0, 0, 1, 7]) 6 true 0
        = some (w, tr) ∧
      w.buffer = some [2, 0, 0, 0, 1, 7] ∧ w.size = 6 ∧ w.compression_size = 0 ∧
      ∃ w2 tr2, file_write write_ok w = some (w2, tr2) ∧ written tr2 = some []) := by
  exact ⟨rfl, ⟨_, _, rfl, rfl, rfl, rfl, _, _, rfl, rfl⟩,
    ⟨_, _, rfl, rfl, rfl, rfl, _, _, rfl, rfl⟩⟩

/-! ## Round trip -/

/-- C3, counterexample: the sample codec inverts its own compression, yet the
round trip does not return the payload where compression fails.  For the
incompressible six bytes `[2, 0, 0, 0, 1, 7]`, even when the unset
`compression_size` happens to equal the size (so that all six bytes reach the
disk), the decompressing read takes the first four bytes for a header and
returns `[0, 7]` with size 2.  For the empty payload (on which compression
fails as well) the file is empty and the header read leaves the buffer. -/
theorem round_trip_fails_without_compression :
    sample_env.inverts ∧
    (sample_env.LZ4_compress_default [2, 0, 0, 0, 1, 7] 6 6).1 = 0 ∧
    (∃ w r, write_then_read sample_env { heap := 1 } "save.bin" [2, 0, 0, 0, 1, 7] 1 false 6 0
        = some (w, r) ∧ w.result = 0 ∧ r.result = 0 ∧
      r.buffer = some [0, 7] ∧ r.size = 2) ∧
    (sample_env.LZ4_compress_default [] 0 0).1 = 0 ∧
    write_then_read sample_env { heap := 1 } "save.bin" [] 1 false 0 0 = none :=
  ⟨sample_env_inverts, rfl, ⟨_, _, rfl, rfl, rfl, rfl, rfl⟩, rfl, rfl⟩

/-- C3, amended: for a codec whose decompressor inverts its compressor, a path
that fits the item's path array and a payload `B` (`|B| < 2^31`, and
`|B| + 1 < 2^31` when the read is null-terminated, so that the `int` passed to
`heap_alloc` does not overflow) on which compression succeeds, the compressed
write followed by the decompressing read of the written bytes ends with result
code 0 and the done signal raised on both jobs, read size `|B|` and `B` in the
first `|B|` bytes of the read buffer (the whole buffer when `null_terminate` is
off). -/
theorem write_then_read_round_trip (env : Env) (fs : fs_t) (path : String) (B : List Nat)
    (heap : Nat) (null_terminate : Bool) (u1 u2 : Nat)
    (hp : path.utf8ByteSize < sizeof_path)
    (hinv : env.inverts) (hn : B.length < 2 ^ 31)
    (hroom : null_terminate = true → B.length < 2 ^ 31 - 1)
    (hc : (env.LZ4_compress_default B B.length B.length).1 ≠ 0) :
    ∃ w r blk, write_then_read env fs path B heap null_terminate u1 u2 = some (w, r) ∧
      w.result = 0 ∧ w.done = true ∧
      r.result = 0 ∧ r.done = true ∧
      r.size = B.length ∧ r.buffer = some blk ∧ blk.take B.length = B ∧
      (null_terminate = false → blk = B) := by
  obtain ⟨hret, hfit, hdec⟩ := hinv B B.length hc
  have hfit2 : (env.LZ4_compress_default B B.length B.length).2.length ≤ B.length := by
    exact_mod_cast hfit
  have hB : B ≠ [] := by
    intro hnil
    have h0 : B.length = 0 := by rw [hnil]; rfl
    apply hc
    omega
  obtain ⟨w, tr, w2, hfs, _, _, hfw, hw2r, hw2d, _⟩ :=
    compressed_write_eq env fs path B u1 hp hn hc hret hfit2
  rw [hret] at hdec
  have hitem : fs_read fs path heap null_terminate true u2 =
      some ({ heap := heap, op := k_fs_work_op_read, path := path,
              null_terminate := null_terminate, use_compression := k_fs_work_op_decompress,
              buffer := none, size := 0, compression_size := u2, done := false,
              com_done := false, result := 0, fs := fs },
            created fs ++ [Effect.queue_push Q.file_queue]) :=
    fs_read_eq fs path heap null_terminate true u2 hp
  obtain ⟨r, tr2, blk, hfr, hrr, hrd, hrs, hrb, htk, hpl, _⟩ :=
    decompressing_read_framed env
      { heap := heap, op := k_fs_work_op_read, path := path, null_terminate := null_terminate,
        use_compression := k_fs_work_op_decompress,
        buffer := none, size := 0, compression_size := u2, done := false, com_done := false,
        result := 0, fs := fs } B
      (env.LZ4_compress_default B B.length B.length).2 hB hn hfit2 hdec rfl hroom
  refine ⟨w2, r, blk, ?_, hw2r, hw2d, hrr, hrd, hrs, hrb, htk, hpl⟩
  unfold write_then_read
  simp only [hfs, hfw, written, List.findSome?_cons, hitem, hfr]

/-- Witness for C3: `[0, 0, 0, 7, 7]` through the sample codec, read back into a
null-terminated buffer. -/
theorem write_then_read_round_trip_witness :
    ∃ w r blk, write_then_read sample_env { heap := 1 } "save.bin" [0, 0, 0, 7, 7] 2 true 0 0
        = some (w, r) ∧
      w.result = 0 ∧ w.done = true ∧
      r.result = 0 ∧ r.done = true ∧
      r.size = [0, 0, 0, 7, 7].length ∧ r.buffer = some blk ∧
      blk.take [0, 0, 0, 7, 7].length = [0, 0, 0, 7, 7] ∧
      (true = false → blk = [0, 0, 0, 7, 7]) :=
  write_then_read_round_trip sample_env { heap := 1 } "save.bin" [0, 0, 0, 7, 7] 2 true 0 0
    (by decide) sample_env_inverts (by decide) (fun _ => by decide) (by decide)

/-! ## Null termination -/

/-- C7: a read item with `null_terminate` set whose Win32 calls all succeed (file
size below 2^63), for a codec that stays inside its destination.  `file_read`
returns, provided that with decompression the file holds at least three bytes
(so that the four header bytes lie inside the block of `size + 1` bytes) and
the header value `h` found there has `0 ≤ h < 2^31 - 1` (so that `heap_alloc`
can serve the `h + 1` bytes `file_decompress` asks for).
Whenever it returns, done is raised and the final block is the block the item
held just before the terminator store (the disk block without decompression,
the block left by `file_decompress`, successful or not, with it) with the same
length, the same reported size, the same first `size` bytes, and a zero at
index `size`, which lies inside the block. -/
theorem file_read_null_terminated (env : Env) (os : ReadOs) (work : fs_work_t)
    (hnt : work.null_terminate = true)
    (hw : 0 < os.wide) (ho : os.open_err = none) (hs : os.size_err = none)
    (hr : os.read_err = none) (hlen : os.data.length < 2 ^ 63)
    (hcodec : env.decompress_in_bounds) :
    ((work.use_compression = k_fs_work_op_decompress →
        3 ≤ DWORD os.data.length ∧
        0 ≤ load_int ((os.data.take (DWORD os.data.length) ++
          (fresh_block env.junk (os.data.length + 1)).drop (DWORD os.data.length)).take 4) ∧
        load_int ((os.data.take (DWORD os.data.length) ++
          (fresh_block env.junk (os.data.length + 1)).drop (DWORD os.data.length)).take 4)
          < 2 ^ 31 - 1) →
      ∃ w tr, file_read env os work = some (w, tr)) ∧
    ∀ w tr, file_read env os work = some (w, tr) →
      w.done = true ∧
      ∃ pre b blk,
        (work.use_compression = k_fs_work_op_decompress →
          ∃ st, file_decompress env
            { work with
                size := DWORD os.data.length
                buffer := some (os.data.take (DWORD os.data.length) ++
                  (fresh_block env.junk (os.data.length + 1)).drop (DWORD os.data.length)) }
            = some (pre, st)) ∧
        (work.use_compression ≠ k_fs_work_op_decompress →
          pre = { work with
                    size := DWORD os.data.length
                    buffer := some (os.data.take (DWORD os.data.length) ++
                      (fresh_block env.junk (os.data.length + 1)).drop (DWORD os.data.length))
                    com_done := true }) ∧
        pre.buffer = some b ∧ w.size = pre.size ∧ w.buffer = some blk ∧
        blk.length = b.length ∧ w.size < blk.length ∧ blk[w.size]? = some 0 ∧
        blk.take w.size = b.take w.size := by
  have hfr := file_read_ok_eq env os work hw ho hs hr hlen
  rw [if_pos hnt] at hfr
  have hd : DWORD os.data.length ≤ os.data.length := DWORD_le _
  have hbl : (os.data.take (DWORD os.data.length) ++
      (fresh_block env.junk (os.data.length + 1)).drop (DWORD os.data.length)).length
      = os.data.length + 1 := by
    simp only [List.length_append, List.length_take, List.length_drop, fresh_block_length]
    omega
  rw [hfr]
  constructor
  · intro h3
    exact file_read_finish_returns env _ _ _ hnt rfl (by rw [hbl]; show DWORD _ < _; omega)
      hcodec (fun hu => ⟨by rw [hbl]; have := (h3 hu).1; omega, (h3 hu).2.1, (h3 hu).2.2⟩)
  · intro w tr h
    exact file_read_finish_terminated env _ w _ tr h hnt

/-- Witness for C7: a decompressing, null-terminated read of the framed file
`[5, 0, 0, 0, 3, 7, 7]` with the sample codec returns. -/
theorem file_read_null_terminated_witness :
    ∃ w tr, file_read sample_env (read_ok [5, 0, 0, 0, 3, 7, 7])
      { heap := 2, op := k_fs_work_op_read, path := "config.txt", null_terminate := true,
        use_compression := k_fs_work_op_decompress, buffer := none, size := 0,
        compression_size := 0, done := false, com_done := false, result := 0,
        fs := { heap := 1 } } = some (w, tr) :=
  (file_read_null_terminated sample_env (read_ok [5, 0, 0, 0, 3, 7, 7])
    { heap := 2, op := k_fs_work_op_read, path := "config.txt", null_terminate := true,
      use_compression := k_fs_work_op_decompress, buffer := none, size := 0,
      compression_size := 0, done := false, com_done := false, result := 0,
      fs := { heap := 1 } } rfl (by decide) rfl rfl rfl
    (by decide) sample_decompress_in_bounds).1 (fun _ => by decide)

/-! ## Result retrieval and destruction -/

/-- C13: on the NULL handle `fs_work_is_done` is true, `fs_work_wait` returns,
`fs_work_destroy` returns without any effect, and the getters return -1, NULL
and 0.  On a non-null handle `fs_work_is_done` is the raised state of the done
signal, and once that signal is raised each getter returns the matching field
of the item. -/
theorem handle_retrieval (w : fs_work_t) :
    fs_work_is_done none = true ∧
    fs_work_wait none = some () ∧
    fs_work_destroy none = some [] ∧
    fs_work_get_result none = some (-1) ∧
    fs_work_get_buffer none = some none ∧
    fs_work_get_size none = some 0 ∧
    fs_work_is_done (some w) = w.done ∧
    (w.done = true →
      fs_work_get_result (some w) = some w.result ∧
      fs_work_get_buffer (some w) = some w.buffer ∧
      fs_work_get_size (some w) = some w.size) := by
  refine ⟨rfl, rfl, rfl, rfl, rfl, rfl, rfl, ?_⟩
  intro hd
  simp [fs_work_get_result, fs_work_get_buffer, fs_work_get_size, fs_work_wait, hd]

/-- Witness for C13: the getters on a finished three-byte read. -/
theorem handle_retrieval_witness :
    fs_work_get_result (some
      { heap := 2, op := k_fs_work_op_read, path := "config.txt", null_terminate := false,
        use_compression := k_fs_work_op_compress, buffer := some [104, 105, 33], size := 3,
        compression_size := 0, done := true, com_done := true, result := 0,
        fs := { heap := 1 } }) = some 0 ∧
    fs_work_get_buffer (some
      { heap := 2, op := k_fs_work_op_read, path := "config.txt", null_terminate := false,
        use_compression := k_fs_work_op_compress, buffer := some [104, 105, 33], size := 3,
        compression_size := 0, done := true, com_done := true, result := 0,
        fs := { heap := 1 } }) = some (some [104, 105, 33]) ∧
    fs_work_get_size (some
      { heap := 2, op := k_fs_work_op_read, path := "config.txt", null_terminate := false,
        use_compression := k_fs_work_op_compress, buffer := some [104, 105, 33], size := 3,
        compression_size := 0, done := true, com_done := true, result := 0,
        fs := { heap := 1 } }) = some 3 :=
  (handle_retrieval
    { heap := 2, op := k_fs_work_op_read, path := "config.txt", null_terminate := false,
      use_compression := k_fs_work_op_compress, buffer := some [104, 105, 33], size := 3,
      compression_size := 0, done := true, com_done := true, result := 0,
      fs := { heap := 1 } }).2.2.2.2.2.2.2 rfl

/-- C14 (code defect): on a non-null item whose done signal is raised,
`fs_work_destroy` waits on done, destroys the done event once, frees the work
item once and does not free the buffer; the stage event `com_done` is never
destroyed. -/
theorem fs_work_destroy_effects (w : fs_work_t) (hd : w.done = true) :
    fs_work_destroy (some w) =
      some [Effect.event_wait Ev.done,
            Effect.event_destroy Ev.done,
            Effect.heap_free w.heap Obj.work_item] ∧
    ∀ tr, fs_work_destroy (some w) = some tr →
      tr.count (Effect.event_destroy Ev.done) = 1 ∧
      tr.count (Effect.heap_free w.heap Obj.work_item) = 1 ∧
      (∀ h, Effect.heap_free h Obj.buffer ∉ tr) ∧
      Effect.event_destroy Ev.com_done ∉ tr := by
  have h : fs_work_destroy (some w) =
      some [Effect.event_wait Ev.done,
            Effect.event_destroy Ev.done,
            Effect.heap_free w.heap Obj.work_item] := by
    simp [fs_work_destroy, hd]
  refine ⟨h, ?_⟩
  intro tr htr
  rw [h] at htr
  cases htr
  simp

/-- Witness for C14: destroying a finished write item. -/
theorem fs_work_destroy_effects_witness :
    fs_work_destroy (some
      { heap := 1, op := k_fs_work_op_write, path := "out.bin", null_terminate := false,
        use_compression := k_fs_work_op_decompress, buffer := some [1, 2, 3], size := 3,
        compression_size := 0, done := true, com_done := true, result := 0,
        fs := { heap := 1 } }) =
      some [Effect.event_wait Ev.done,
            Effect.event_destroy Ev.done,
            Effect.heap_free 1 Obj.work_item] :=
  (fs_work_destroy_effects
    { heap := 1, op := k_fs_work_op_write, path := "out.bin", null_terminate := false,
      use_compression := k_fs_work_op_decompress, buffer := some [1, 2, 3], size := 3,
      compression_size := 0, done := true, com_done := true, result := 0,
      fs := { heap := 1 } } rfl).1

/-- C18 (code defect): for a path that fits the item's path array, `fs_read`
allocates the work item from the facade's heap `fs.heap` and stores the
destination heap in `work.heap`; `fs_work_destroy` frees the finished item to
`work.heap`, i.e. to the destination heap, whatever it is.  With facade heap 1
and destination heap 2 the item is allocated from heap 1 and freed to heap 2.
An item made by `fs_write` is allocated from and freed to `fs.heap`. -/
theorem work_item_heaps (env : Env) (fs : fs_t) (path : String) (heap : Nat)
    (null_terminate use_compression : Bool) (uninit : Nat) (buffer : Option (List Nat))
    (size : Nat) (hp : path.utf8ByteSize < sizeof_path) :
    (∃ item tr, fs_read fs path heap null_terminate use_compression uninit = some (item, tr) ∧
      tr.head? = some (Effect.heap_alloc fs.heap sizeof_fs_work_t Obj.work_item) ∧
      fs_work_destroy (some { item with done := true })
        = some [Effect.event_wait Ev.done, Effect.event_destroy Ev.done,
                Effect.heap_free heap Obj.work_item]) ∧
    (∃ item tr, fs_read { heap := 1 } path 2 null_terminate use_compression uninit
        = some (item, tr) ∧
      tr.head? = some (Effect.heap_alloc 1 sizeof_fs_work_t Obj.work_item) ∧
      fs_work_destroy (some { item with done := true })
        = some [Effect.event_wait Ev.done, Effect.event_destroy Ev.done,
                Effect.heap_free 2 Obj.work_item]) ∧
    (∃ w tr, fs_write env fs path buffer size false uninit = some (w, tr) ∧
      tr.head? = some (Effect.heap_alloc fs.heap sizeof_fs_work_t Obj.work_item) ∧
      fs_work_destroy (some { w with done := true })
        = some [Effect.event_wait Ev.done, Effect.event_destroy Ev.done,
                Effect.heap_free fs.heap Obj.work_item]) :=
  ⟨⟨_, _, fs_read_eq fs path heap null_terminate use_compression uninit hp, rfl, rfl⟩,
   ⟨_, _, fs_read_eq { heap := 1 } path 2 null_terminate use_compression uninit hp, rfl, rfl⟩,
   ⟨_, _, fs_write_plain_eq env fs path buffer size uninit hp, rfl, rfl⟩⟩

/-- Witness for C18: a read of `config.txt` submitted on the facade of heap 1
with destination heap 2. -/
theorem work_item_heaps_witness :
    ∃ item tr, fs_read { heap := 1 } "config.txt" 2 false false 0 = some (item, tr) ∧
      tr.head? = some (Effect.heap_alloc 1 sizeof_fs_work_t Obj.work_item) ∧
      fs_work_destroy (some { item with done := true })
        = some [Effect.event_wait Ev.done, Effect.event_destroy Ev.done,
                Effect.heap_free 2 Obj.work_item] :=
  (work_item_heaps sample_env { heap := 1 } "config.txt" 2 false false 0 none 0
    (by decide)).1

/-! ## Allocator lock -/

/-- C20 (code defect): when the first `tlsf_memalign` fails and `VirtualAlloc`
fails too, `heap_alloc` returns NULL after one `mutex_lock` and no
`mutex_unlock`: the mutex stays held.  On the two paths that return an address
and in `heap_free` the lock and unlock calls balance. -/
theorem heap_alloc_lock_balance (heap : Heap.heap_t) (second : Option Nat) (overhead : Nat)
    (size alignment a b address : Nat) :
    (∃ tr, Heap.heap_alloc heap
        { first := none, arena := none, second := second, pool_overhead := overhead }
        size alignment = some (none, tr) ∧
      tr.count Heap.Call.mutex_lock = 1 ∧ tr.count Heap.Call.mutex_unlock = 0) ∧
    (∃ tr, Heap.heap_alloc heap
        { first := some a, arena := some b, second := second, pool_overhead := overhead }
        size alignment = some (some (a + 80), tr) ∧
      tr.count Heap.Call.mutex_lock = 1 ∧ tr.count Heap.Call.mutex_unlock = 1) ∧
    (∃ tr, Heap.heap_alloc heap
        { first := none, arena := some b, second := some a, pool_overhead := overhead }
        size alignment = some (some (a + 80), tr) ∧
      tr.count Heap.Call.mutex_lock = 1 ∧ tr.count Heap.Call.mutex_unlock = 1) ∧
    (Heap.heap_free address).count Heap.Call.mutex_lock = 1 ∧
    (Heap.heap_free address).count Heap.Call.mutex_unlock = 1 := by
  refine ⟨⟨_, rfl, ?_, ?_⟩, ⟨_, rfl, ?_, ?_⟩, ⟨_, rfl, ?_, ?_⟩, ?_, ?_⟩ <;>
    simp [Heap.heap_free]

/-! ## Sizes after the compression stage and at the disk write -/

/-- C11, counterexample: the sample codec compresses the five bytes
`[0, 0, 0, 7, 7]` to three bytes; after the compression stage the item's size is
still 5 (its `compression_size` is 7), and after the disk write
`fs_work_get_size` returns 5, not 4 + 3. -/
theorem size_after_compression_is_payload_size :
    sample_env.LZ4_compress_default [0, 0, 0, 7, 7] 5 5 = (3, [3, 7, 7]) ∧
    ∃ w tr w2 tr2,
      fs_write sample_env { heap := 1 } "save.bin" (some [0, 0, 0, 7, 7]) 5 true 0
        = some (w, tr) ∧
      w.size = 5 ∧ w.compression_size = 7 ∧
      file_write write_ok w = some (w2, tr2) ∧
      fs_work_get_size (some w2) = some 5 :=
  ⟨rfl, _, _, _, _, rfl, rfl, rfl, rfl, rfl⟩

/-- C11, amended: after a successful compression stage on a write item with an
`n`-byte payload and compressed length `c`, the item's `compression_size` is
`4 + c`, and that is the number of bytes `file_write` hands to `WriteFile` (the
first `compression_size` bytes of the buffer); its `size` is still `n` (which
is what `fs_work_get_size` returns once the write is done); and its buffer is
the block of `n + 4` bytes allocated by the stage, holding the header and the
codec output. -/
theorem compression_stage_sizes (env : Env) (fs : fs_t) (path : String) (B : List Nat)
    (uninit : Nat) (hp : path.utf8ByteSize < sizeof_path) (hn : B.length < 2 ^ 31)
    (hc : (env.LZ4_compress_default B B.length B.length).1 ≠ 0)
    (hret : (env.LZ4_compress_default B B.length B.length).1
      = (env.LZ4_compress_default B B.length B.length).2.length)
    (hfit : (env.LZ4_compress_default B B.length B.length).2.length ≤ B.length) :
    ∃ w tr w2 bytes blk,
      fs_write env fs path (some B) B.length true uninit = some (w, tr) ∧
      (w.compression_size : Int) = 4 + (env.LZ4_compress_default B B.length B.length).1 ∧
      w.size = B.length ∧
      Effect.heap_alloc fs.heap (B.length + 4) Obj.buffer_temp ∈ tr ∧
      w.buffer = some blk ∧ blk.length = B.length + 4 ∧
      blk.take (4 + (env.LZ4_compress_default B B.length B.length).2.length)
        = store_int (B.length : Int) ++ (env.LZ4_compress_default B B.length B.length).2 ∧
      file_write write_ok w =
        some (w2, [Effect.WriteFile bytes,
                   Effect.heap_free fs.heap Obj.buffer,
                   Effect.event_signal Ev.done]) ∧
      bytes = blk.take w.compression_size ∧
      bytes.length = w.compression_size ∧
      fs_work_get_size (some w2) = some B.length := by
  obtain ⟨w, tr, w2, hfs, hws, _, hfw, _, hw2d, hw2s, hwk, hwb, hal⟩ :=
    compressed_write_eq env fs path B uninit hp hn hc hret hfit
  have htake : (store_int (B.length : Int) ++ (env.LZ4_compress_default B B.length B.length).2 ++
      (fresh_block env.junk (B.length + 4)).drop
        (4 + (env.LZ4_compress_default B B.length B.length).2.length)).take
        (4 + (env.LZ4_compress_default B B.length B.length).2.length)
      = store_int (B.length : Int) ++ (env.LZ4_compress_default B B.length B.length).2 :=
    take_append_at _ _ _ (by simp only [List.length_append, store_int_length])
  refine ⟨w, tr, w2, _, _, hfs, ?_, hws, hal, hwb, ?_, htake, hfw, ?_, ?_, ?_⟩
  · rw [hwk, hret]; push_cast; ring
  · simp only [List.length_append, store_int_length, List.length_drop, fresh_block_length]
    omega
  · rw [hwk, htake]
  · rw [hwk]
    simp only [List.length_append, store_int_length]
  · simp [fs_work_get_size, fs_work_wait, hw2d, hw2s]

/-- Witness for C11: the five bytes `[0, 0, 0, 7, 7]` with the sample codec. -/
theorem compression_stage_sizes_witness :
    ∃ w tr w2 bytes blk,
      fs_write sample_env { heap := 1 } "save.bin" (some [0, 0, 0, 7, 7])
        [0, 0, 0, 7, 7].length true 0 = some (w, tr) ∧
      (w.compression_size : Int) = 4 + (sample_compress [0, 0, 0, 7, 7] 5 5).1 ∧
      w.size = [0, 0, 0, 7, 7].length ∧
      Effect.heap_alloc 1 ([0, 0, 0, 7, 7].length + 4) Obj.buffer_temp ∈ tr ∧
      w.buffer = some blk ∧ blk.length = [0, 0, 0, 7, 7].length + 4 ∧
      blk.take (4 + (sample_compress [0, 0, 0, 7, 7] 5 5).2.length)
        = store_int (([0, 0, 0, 7, 7] : List Nat).length : Int)
            ++ (sample_compress [0, 0, 0, 7, 7] 5 5).2 ∧
      file_write write_ok w =
        some (w2, [Effect.WriteFile bytes,
                   Effect.heap_free 1 Obj.buffer,
                   Effect.event_signal Ev.done]) ∧
      bytes = blk.take w.compression_size ∧
      bytes.length = w.compression_size ∧
      fs_work_get_size (some w2) = some [0, 0, 0, 7, 7].length :=
  compression_stage_sizes sample_env { heap := 1 } "save.bin" [0, 0, 0, 7, 7] 0
    (by decide) (by decide) (by decide) (by decide) (by decide)

/-- C17 (code defect): an uncompressed write of `2^32 + 1` bytes hands
`WriteFile` a single byte, the `(DWORD)` cast of the size, and then reports
success: result code 0, done raised, size 1. -/
theorem write_length_wraps_at_32_bits :
    ∃ w, file_write write_ok
        { heap := 1, op := k_fs_work_op_write, path := "big.bin", null_terminate := false,
          use_compression := k_fs_work_op_decompress,
          buffer := some (List.replicate 4294967297 0), size := 4294967297,
          compression_size := 0, done := false, com_done := true, result := 0,
          fs := { heap := 1 } }
      = some (w, [Effect.WriteFile [0], Effect.event_signal Ev.done]) ∧
      w.result = 0 ∧ w.done = true ∧ w.size = 1 := by
  have h := file_write_plain_eq
    { heap := 1, op := k_fs_work_op_write, path := "big.bin", null_terminate := false,
      use_compression := k_fs_work_op_decompress,
      buffer := some (List.replicate 4294967297 0), size := 4294967297,
      compression_size := 0, done := false, com_done := true, result := 0,
      fs := { heap := 1 } }
    (List.replicate 4294967297 0) rfl rfl (by
      show 4294967297 ≤ (List.replicate 4294967297 0).length
      rw [List.length_replicate])
  simp only [DWORD_wrap_example, List.take_replicate] at h
  exact ⟨_, h, rfl, rfl, rfl⟩

/-- Below `2^32` the cast changes nothing: for an uncompressed write item whose
buffer holds `size` bytes, a successful `file_write` hands `WriteFile` the first
`size mod 2^32` bytes of the buffer in one call, which for `size < 2^32` are
exactly the `size` bytes. -/
theorem write_length (work : fs_work_t) (blk : List Nat)
    (hu : work.use_compression = k_fs_work_op_decompress) (hb : work.buffer = some blk)
    (hfit : work.size ≤ blk.length) :
    ∃ w bytes, file_write write_ok work
        = some (w, [Effect.WriteFile bytes, Effect.event_signal Ev.done]) ∧
      bytes = blk.take (work.size % 2 ^ 32) ∧
      bytes.length = work.size % 2 ^ 32 ∧
      (work.size < 2 ^ 32 → bytes = blk.take work.size ∧ bytes.length = work.size) := by
  have hd : work.size % 2 ^ 32 ≤ work.size := Nat.mod_le _ _
  have hlen : (blk.take (work.size % 2 ^ 32)).length = work.size % 2 ^ 32 := by
    simp only [List.length_take]; omega
  refine ⟨_, _, file_write_plain_eq work blk hu hb hfit, rfl, hlen, ?_⟩
  intro hs
  have hm : work.size % 2 ^ 32 = work.size := Nat.mod_eq_of_lt hs
  show blk.take (work.size % 2 ^ 32) = _ ∧ (blk.take (work.size % 2 ^ 32)).length = _
  rw [hm] at hlen ⊢
  exact ⟨rfl, hlen⟩

/-- The count of `write_length` on a three-byte uncompressed write. -/
theorem write_length_witness :
    ∃ w bytes, file_write write_ok
        { heap := 1, op := k_fs_work_op_write, path := "out.bin", null_terminate := false,
          use_compression := k_fs_work_op_decompress, buffer := some [1, 2, 3], size := 3,
          compression_size := 0, done := false, com_done := true, result := 0,
          fs := { heap := 1 } }
        = some (w, [Effect.WriteFile bytes, Effect.event_signal Ev.done]) ∧
      bytes = [1, 2, 3].take (3 % 2 ^ 32) ∧
      bytes.length = 3 % 2 ^ 32 ∧
      (3 < 2 ^ 32 → bytes = [1, 2, 3].take 3 ∧ bytes.length = 3) :=
  write_length
    { heap := 1, op := k_fs_work_op_write, path := "out.bin", null_terminate := false,
      use_compression := k_fs_work_op_decompress, buffer := some [1, 2, 3], size := 3,
      compression_size := 0, done := false, com_done := true, result := 0,
      fs := { heap := 1 } }
    [1, 2, 3] rfl rfl (by decide)

/-! ## The decompression stage -/

/-- C12, counterexample: the block `[0, 0, 0, 0, 0]` frames the empty payload for
the sample codec (header 0, codec bytes `[0]`), and the sample decompressor
returns length 0 for it; `file_decompress` treats that as a failure and leaves
the five framed bytes and the size 5 in place.  And on a block whose header is
negative (`-1000`) the destination cannot be allocated: the stage does not
return and raises no signal. -/
theorem zero_length_decompress_is_not_installed :
    sample_env.LZ4_compress_default [] 0 1 = (1, [0]) ∧
    sample_env.LZ4_decompress_safe [0] 1 0 = (0, []) ∧
    (∃ w st, file_decompress sample_env
        { heap := 2, op := k_fs_work_op_read, path := "empty.bin", null_terminate := false,
          use_compression := k_fs_work_op_decompress, buffer := some [0, 0, 0, 0, 0],
          size := 5, compression_size := 0, done := false, com_done := false, result := 0,
          fs := { heap := 1 } } = some (w, st) ∧
      w.buffer = some [0, 0, 0, 0, 0] ∧ w.size = 5 ∧ w.com_done = true) ∧
    load_int [24, 252, 255, 255] = -1000 ∧
    file_decompress sample_env
        { heap := 2, op := k_fs_work_op_read, path := "bad.bin", null_terminate := false,
          use_compression := k_fs_work_op_decompress, buffer := some [24, 252, 255, 255, 0],
          size := 5, compression_size := 0, done := false, com_done := false, result := 0,
          fs := { heap := 1 } } = none :=
  ⟨rfl, rfl, ⟨_, _, rfl, rfl, rfl, rfl⟩, rfl, rfl⟩

/-- C12, amended: for a read item of size `s` (`4 ≤ s < 2^31`) whose block holds
the payload and a header with value `h ≥ 0` (`h < 2^31 - 1` when
`null_terminate` is set), and a decompressor that stays inside its
destination: `file_decompress` allocates a destination of `h` bytes (`h + 1`
with `null_terminate`), returns, and raises the stage signal.  When the codec
returns a length `d > 0`, the item's size becomes `d`, its buffer becomes that
newly allocated block with the bytes the codec wrote at its start, and the old
buffer is freed.  When the codec returns `d ≤ 0` (failure, or the length zero),
buffer and size are what they were before the stage and the new block is
freed. -/
theorem file_decompress_outcome (env : Env) (work : fs_work_t) (blk : List Nat)
    (hb : work.buffer = some blk) (h4 : 4 ≤ work.size) (hs : work.size ≤ blk.length)
    (h31 : work.size < 2 ^ 31) (hh0 : 0 ≤ load_int (blk.take 4))
    (hh1 : work.null_terminate = true → load_int (blk.take 4) < 2 ^ 31 - 1)
    (hcodec : env.decompress_in_bounds) :
    ∃ (w : fs_work_t) (st : List Effect) (capacity : Nat),
      file_decompress env work = some (w, st) ∧
      (capacity : Int) = (if work.null_terminate then load_int (blk.take 4) + 1
                          else load_int (blk.take 4)) ∧
      w.com_done = true ∧ Effect.event_signal Ev.com_done ∈ st ∧
      (0 < (env.LZ4_decompress_safe ((blk.drop 4).take (work.size - 4))
              ((work.size - 4 : Nat) : Int) (load_int (blk.take 4))).1 →
        (w.size : Int) = (env.LZ4_decompress_safe ((blk.drop 4).take (work.size - 4))
              ((work.size - 4 : Nat) : Int) (load_int (blk.take 4))).1 ∧
        w.buffer = some ((env.LZ4_decompress_safe ((blk.drop 4).take (work.size - 4))
              ((work.size - 4 : Nat) : Int) (load_int (blk.take 4))).2 ++
            (fresh_block env.junk capacity).drop
              (env.LZ4_decompress_safe ((blk.drop 4).take (work.size - 4))
                ((work.size - 4 : Nat) : Int) (load_int (blk.take 4))).2.length) ∧
        ((env.LZ4_decompress_safe ((blk.drop 4).take (work.size - 4))
              ((work.size - 4 : Nat) : Int) (load_int (blk.take 4))).2 ++
            (fresh_block env.junk capacity).drop
              (env.LZ4_decompress_safe ((blk.drop 4).take (work.size - 4))
                ((work.size - 4 : Nat) : Int) (load_int (blk.take 4))).2.length).length
          = capacity ∧
        st = [Effect.heap_alloc work.heap capacity Obj.buffer_temp,
              Effect.heap_free work.heap Obj.buffer,
              Effect.event_signal Ev.com_done]) ∧
      ((env.LZ4_decompress_safe ((blk.drop 4).take (work.size - 4))
              ((work.size - 4 : Nat) : Int) (load_int (blk.take 4))).1 ≤ 0 →
        w.buffer = work.buffer ∧ w.size = work.size ∧
        st = [Effect.heap_alloc work.heap capacity Obj.buffer_temp,
              Effect.heap_free work.heap Obj.buffer_temp,
              Effect.event_signal Ev.com_done]) := by
  have hfd := file_decompress_sized_eq env work blk hb h4 hs h31 hh0 hh1 hcodec
  have hcd := hcodec ((blk.drop 4).take (work.size - 4)) ((work.size - 4 : Nat) : Int)
    (load_int (blk.take 4))
  have hrange := load_int_range (blk.take 4)
  have hcap := decompress_capacity_eq (load_int (blk.take 4)) work.null_terminate hh0
    hrange.2 hh1
  have hroom : (load_int (blk.take 4)) ≤ ((size_t (if work.null_terminate
      then to_int (load_int (blk.take 4) + 1) else load_int (blk.take 4)) : Nat) : Int) := by
    rw [hcap.1]
    split <;> omega
  generalize env.LZ4_decompress_safe ((blk.drop 4).take (work.size - 4))
    ((work.size - 4 : Nat) : Int) (load_int (blk.take 4)) = R at hfd hcd ⊢
  generalize size_t (if work.null_terminate then to_int (load_int (blk.take 4) + 1)
    else load_int (blk.take 4)) = capacity at hfd hcap hroom
  by_cases hpos : R.1 > 0
  · rw [if_pos hpos] at hfd
    refine ⟨_, _, capacity, hfd, hcap.1, rfl, by simp, fun _ => ⟨?_, rfl, ?_, rfl⟩,
      fun hle => absurd hpos (not_lt.mpr hle)⟩
    · have h2 := hcd.2 hpos
      show ((size_t R.1 : Nat) : Int) = R.1
      unfold size_t
      omega
    · have h1 := hcd.1
      simp only [List.length_append, List.length_drop, fresh_block_length]
      omega
  · rw [if_neg hpos] at hfd
    exact ⟨_, _, capacity, hfd, hcap.1, rfl, by simp, fun h => absurd h hpos,
      fun _ => ⟨rfl, rfl, rfl⟩⟩

/-- Witness for C12: the framed block `[5, 0, 0, 0, 3, 7, 7]` with the sample
codec. -/
theorem file_decompress_outcome_witness :
    ∃ w st, file_decompress sample_env sample_framed_item = some (w, st) ∧
      w.com_done = true ∧ Effect.event_signal Ev.com_done ∈ st :=
  (file_decompress_outcome sample_env sample_framed_item
      [5, 0, 0, 0, 3, 7, 7] rfl (by decide) (by decide) (by decide) (by decide)
      (fun _ => by decide) sample_decompress_in_bounds).elim
    fun w h => h.elim fun st h2 => h2.elim fun _ h3 => ⟨w, st, h3.1, h3.2.2.1, h3.2.2.2.1⟩

/-- C15: whatever `file_compress` or `file_decompress` returns, the stage signal
is raised, the done signal is not (its state is unchanged and no effect raises
it), and `result`, `op`, `path`, `null_terminate` and `use_compression` are
unchanged.  Both stages do return for a codec that stays inside its
destination: `file_compress` on a buffer holding `size` bytes
(`size + 4 ≤ 2^63`), `file_decompress` on a block holding `size` bytes and a
header whose value `h` has `0 ≤ h` (`h < 2^31 - 1` when `null_terminate` is
set), so that the destination can be allocated. -/
theorem compression_stage_frame (env : Env) (work : fs_work_t) :
    (∀ w st, file_compress env work = some (w, st) → stage_frame work w st) ∧
    (∀ w st, file_decompress env work = some (w, st) → stage_frame work w st) ∧
    (∀ blk, work.buffer = some blk → work.size ≤ blk.length → work.size + 4 ≤ 2 ^ 63 →
      env.compress_in_bounds → ∃ w st, file_compress env work = some (w, st)) ∧
    (∀ blk, work.buffer = some blk → 4 ≤ blk.length → work.size ≤ blk.length →
      0 ≤ load_int (blk.take 4) →
      (work.null_terminate = true → load_int (blk.take 4) < 2 ^ 31 - 1) →
      env.decompress_in_bounds → ∃ w st, file_decompress env work = some (w, st)) := by
  refine ⟨file_compress_frame env work, file_decompress_frame env work, ?_, ?_⟩
  · intro blk hb hs hsz hcodec
    obtain ⟨w, st, h, _⟩ := file_compress_stage env work blk hb hs hsz hcodec
    exact ⟨w, st, h⟩
  · intro blk hb h4 hs hh0 hh1 hcodec
    exact file_decompress_returns env work blk hb h4 hs hh0 hh1 hcodec

/-- Witness for C15: the decompression stage on the sample framed item. -/
theorem compression_stage_frame_witness :
    ∃ w st, file_decompress sample_env sample_framed_item = some (w, st) ∧
      stage_frame sample_framed_item w st :=
  ((compression_stage_frame sample_env sample_framed_item).2.2.2 [5, 0, 0, 0, 3, 7, 7] rfl
      (by decide) (by decide) (by decide) (fun _ => by decide)
      sample_decompress_in_bounds).elim
    fun w h => h.elim fun st hst =>
      ⟨w, st, hst, (compression_stage_frame sample_env sample_framed_item).2.1 w st hst⟩

/-! ## Worker loops -/

/-- C16: on a queue that holds a sentinel, each worker returns 0 after handling
exactly the items before the first sentinel, once each and in queue order,
whatever follows the sentinel (every handler before the sentinel being
defined).  The file worker hands Read items to `file_read` and Write items to
`file_write`; the compression worker dispatches on the compression intent. -/
theorem worker_loops (env : Env)
    (pre : List (fs_work_t × ReadOs × WriteOs))
    (post : List (Option (fs_work_t × ReadOs × WriteOs)))
    (results : List (fs_work_t × List Effect))
    (cpre : List fs_work_t) (cpost : List (Option fs_work_t))
    (cresults : List (fs_work_t × List Effect))
    (h : List.Forall₂
      (fun item r => file_thread_func_step env item.2.1 item.2.2 item.1 = some r) pre results)
    (hc : List.Forall₂ (fun work r => file_compress_func_step env work = some r) cpre cresults) :
    file_thread_func env (pre.map some ++ none :: post) = some (0, results) ∧
    results.length = pre.length ∧
    (∀ w ros wos, w.op = k_fs_work_op_read →
      file_thread_func_step env ros wos w = file_read env ros w) ∧
    (∀ w ros wos, w.op = k_fs_work_op_write →
      file_thread_func_step env ros wos w = file_write wos w) ∧
    file_compress_func env (cpre.map some ++ none :: cpost) = some (0, cresults) ∧
    cresults.length = cpre.length ∧
    (∀ w, w.use_compression = k_fs_work_op_compress →
      file_compress_func_step env w = file_compress env w) ∧
    (∀ w, w.use_compression = k_fs_work_op_decompress →
      file_compress_func_step env w = file_decompress env w) := by
  refine ⟨file_thread_func_eq env post pre results h, h.length_eq.symm, ?_, ?_,
    file_compress_func_eq env cpost cpre cresults hc, hc.length_eq.symm, ?_, ?_⟩
  · intro w ros wos hop; simp only [file_thread_func_step, hop]
  · intro w ros wos hop; simp only [file_thread_func_step, hop]
  · intro w hu; simp only [file_compress_func_step, hu]
  · intro w hu; simp only [file_compress_func_step, hu]

/-- Witness for C16: a file queue holding a read of a missing file, a
three-byte write, the sentinel and one more item; a compression queue holding
the sample framed item and the sentinel. -/
theorem worker_loops_witness :
    file_thread_func sample_env
        ([(sample_read_item, missing_file, write_ok),
          (sample_write_item, missing_file, write_ok)].map some
          ++ none :: [some (sample_write_item, missing_file, write_ok)])
      = some (0,
          [({ sample_read_item with result := 2 }, []),
           ({ sample_write_item with size := 3, done := true },
            [Effect.WriteFile [1, 2, 3], Effect.event_signal Ev.done])]) ∧
    file_compress_func sample_env ([sample_framed_item].map some ++ none :: [])
      = some (0,
          [({ sample_framed_item with size := 5, buffer := some [0, 0, 0, 7, 7], com_done := true },
            [Effect.heap_alloc 2 5 Obj.buffer_temp, Effect.heap_free 2 Obj.buffer,
             Effect.event_signal Ev.com_done])]) :=
  (fun t => ⟨t.1, t.2.2.2.2.1⟩)
    (worker_loops sample_env
      [(sample_read_item, missing_file, write_ok),
       (sample_write_item, missing_file, write_ok)]
      [some (sample_write_item, missing_file, write_ok)]
      [({ sample_read_item with result := 2 }, []),
       ({ sample_write_item with size := 3, done := true },
        [Effect.WriteFile [1, 2, 3], Effect.event_signal Ev.done])]
      [sample_framed_item] []
      [({ sample_framed_item with size := 5, buffer := some [0, 0, 0, 7, 7], com_done := true },
        [Effect.heap_alloc 2 5 Obj.buffer_temp, Effect.heap_free 2 Obj.buffer,
         Effect.event_signal Ev.com_done])]
      (List.Forall₂.cons rfl (List.Forall₂.cons rfl List.Forall₂.nil))
      (List.Forall₂.cons rfl List.Forall₂.nil))

/-! ## Header safety -/

theorem to_int_small (x : Int) (h0 : -2 ^ 31 ≤ x) (h1 : x < 2 ^ 31) : to_int x = x := by
  unfold to_int
  split <;> omega

theorem trace_duration_push_idle (trace : trace_t) (name : List Nat) (pid tid us : Nat)
    (h : trace.started = false ∨ ¬ trace.event_num < trace.capacity) :
    trace_duration_push trace name pid tid us = some trace := by
  unfold trace_duration_push
  rcases h with h | h
  · simp [h]
  · simp [h]

theorem trace_duration_pop_idle (trace : trace_t) (us : Nat)
    (h : trace.started = false ∨ trace.events = []) :
    trace_duration_pop trace us = some trace := by
  unfold trace_duration_pop
  rcases h with h | h
  · simp [h]
  · simp [h]

theorem trace_duration_push_eq (trace : trace_t) (name : List Nat) (pid tid us : Nat)
    (t : trace_t) (hs : trace.started = true) (hlt : trace.event_num < trace.capacity)
    (h : trace_duration_push trace name pid tid us = some t) :
    ∃ info, t = { trace with
                    events := { name := name, pid := pid, tid := tid } :: trace.events
                    event_num := to_int (trace.event_num + 1)
                    info := some info } := by
  unfold trace_duration_push at h
  rw [if_pos hs, if_pos hlt] at h
  unfold strcpy_s sprintf_s at h
  split at h
  · cases h
  · rename_i copied hc
    split at hc
    · cases hc
      dsimp only at h
      split at h
      · cases h
      · split at h
        · cases h
        · split at h
          · cases h
          · cases h
            exact ⟨_, rfl⟩
    · cases hc

theorem trace_duration_pop_eq (trace : trace_t) (us : Nat) (e : event_t) (rest : List event_t)
    (t : trace_t) (hs : trace.started = true) (he : trace.events = e :: rest)
    (h : trace_duration_pop trace us = some t) :
    ∃ info, t = { trace with
                    events := rest
                    event_num := to_int (trace.event_num - 1)
                    info := some info } := by
  unfold trace_duration_pop at h
  rw [if_pos hs] at h
  split at h
  · rename_i hnil
    rw [he] at hnil
    cases hnil
  · rename_i popping next hcons
    rw [he] at hcons
    cases hcons
    dsimp only at h
    split at h
    · cases h
    · split at h
      · cases h
      · split at h
        · cases h
        · cases h
          exact ⟨_, rfl⟩

theorem trace_duration_push_returns (trace : trace_t) (name : List Nat) (pid tid us : Nat)
    (info : List Nat) (hs : trace.started = true) (hlt : trace.event_num < trace.capacity)
    (hi : trace.info = some info) (hn : name.length < sizeof_name)
    (ht : (duration_text "B" name pid tid us).length < sizeof_buffer)
    (hr : info.length + (duration_text "B" name pid tid us).length < sizeof_info) :
    ∃ t, trace_duration_push trace name pid tid us = some t := by
  unfold trace_duration_push
  rw [if_pos hs, if_pos hlt]
  simp only [strcpy_s, if_pos hn, sprintf_s, if_pos ht, hi, strcat_s, if_pos hr]
  exact ⟨_, rfl⟩

theorem trace_duration_pop_returns (trace : trace_t) (us : Nat) (e : event_t)
    (rest : List event_t) (info : List Nat) (hs : trace.started = true)
    (he : trace.events = e :: rest) (hi : trace.info = some info)
    (ht : (duration_text "E" e.name e.pid e.tid us).length < sizeof_buffer)
    (hr : info.length + (duration_text "E" e.name e.pid e.tid us).length < sizeof_info) :
    ∃ t, trace_duration_pop trace us = some t := by
  unfold trace_duration_pop
  rw [if_pos hs]
  simp only [he, sprintf_s, if_pos ht, hi, strcat_s, if_pos hr]
  exact ⟨_, rfl⟩

theorem trace_capture_start_eq (trace : trace_t) (path : String) (t : trace_t)
    (h : trace_capture_start trace path = some t) :
    ∃ info, t = { trace with started := true, path := some path, info := some info } := by
  unfold trace_capture_start strcpy_s at h
  dsimp only at h
  split at h
  · split at h
    · cases h
    · cases h
      exact ⟨_, rfl⟩
  · cases h

theorem trace_capture_stop_eq (env : Env) (os : WriteOs) (uninit : Nat) (trace t : trace_t)
    (tr : List Effect) (h : trace_capture_stop env os uninit trace = some (t, tr)) :
    ∃ info, t = { trace with started := false, info := some info } := by
  unfold trace_capture_stop at h
  dsimp only at h
  split at h
  · cases h
  · split at h
    · cases h
    · split at h
      · cases h
      · split at h
        · cases h
        · split at h
          · cases h
          · split at h
            · cases h
            · split at h
              · cases h
              · cases h
                exact ⟨_, rfl⟩

theorem trace_create_inv (heap : Nat) (capacity : Int) (h0 : 0 ≤ capacity) :
    trace_inv capacity (trace_create heap capacity) :=
  ⟨rfl, rfl, h0, fun h => by cases h⟩

theorem trace_step_inv (env : Env) (capacity : Int) (h31 : capacity < 2 ^ 31)
    (trace t : trace_t) (call : trace_call) (hinv : trace_inv capacity trace)
    (h : trace_step env trace call = some t) : trace_inv capacity t := by
  obtain ⟨hc, hn, hle, hinfo⟩ := hinv
  cases call with
  | capture_start path =>
    obtain ⟨info, rfl⟩ := trace_capture_start_eq trace path t h
    exact ⟨hc, hn, hle, fun _ => by simp⟩
  | duration_push name pid tid us =>
    by_cases hs : trace.started = true
    · by_cases hlt : trace.event_num < trace.capacity
      · obtain ⟨info, rfl⟩ := trace_duration_push_eq trace name pid tid us t hs hlt h
        have hsmall : to_int (trace.event_num + 1) = trace.event_num + 1 :=
          to_int_small _ (by omega) (by omega)
        refine ⟨hc, ?_, ?_, fun _ => by simp⟩
        · show to_int (trace.event_num + 1) = ((_ :: trace.events).length : Int)
          rw [hsmall, hn, List.length_cons]
          push_cast
          rfl
        · show to_int (trace.event_num + 1) ≤ trace.capacity
          rw [hsmall]
          omega
      · have hidle := trace_duration_push_idle trace name pid tid us (Or.inr hlt)
        have : t = trace := by
          have h2 : trace_duration_push trace name pid tid us = some t := h
          rw [hidle] at h2
          cases h2
          rfl
        subst this
        exact ⟨hc, hn, hle, hinfo⟩
    · have hidle := trace_duration_push_idle trace name pid tid us
        (Or.inl (by simpa using hs))
      have : t = trace := by
        have h2 : trace_duration_push trace name pid tid us = some t := h
        rw [hidle] at h2
        cases h2
        rfl
      subst this
      exact ⟨hc, hn, hle, hinfo⟩
  | duration_pop us =>
    by_cases hs : trace.started = true
    · cases he : trace.events with
      | nil =>
        have hidle := trace_duration_pop_idle trace us (Or.inr he)
        have : t = trace := by
          have h2 : trace_duration_pop trace us = some t := h
          rw [hidle] at h2
          cases h2
          rfl
        subst this
        exact ⟨hc, hn, hle, hinfo⟩
      | cons e rest =>
        obtain ⟨info, rfl⟩ := trace_duration_pop_eq trace us e rest t hs he h
        rw [he, List.length_cons] at hn
        push_cast at hn
        have hsmall : to_int (trace.event_num - 1) = trace.event_num - 1 :=
          to_int_small _ (by omega) (by omega)
        refine ⟨hc, ?_, ?_, fun _ => by simp⟩
        · show to_int (trace.event_num - 1) = (rest.length : Int)
          rw [hsmall]
          omega
        · show to_int (trace.event_num - 1) ≤ trace.capacity
          rw [hsmall]
          omega
    · have hidle := trace_duration_pop_idle trace us (Or.inl (by simpa using hs))
      have : t = trace := by
        have h2 : trace_duration_pop trace us = some t := h
        rw [hidle] at h2
        cases h2
        rfl
      subst this
      exact ⟨hc, hn, hle, hinfo⟩
  | capture_stop os uninit =>
    have h2 : (trace_capture_stop env os uninit trace).map Prod.fst = some t := h
    cases hst : trace_capture_stop env os uninit trace with
    | none => rw [hst] at h2; cases h2
    | some r =>
      rw [hst] at h2
      cases h2
      obtain ⟨info, heq⟩ := trace_capture_stop_eq env os uninit trace r.1 r.2 hst
      rw [heq]
      exact ⟨hc, hn, hle, fun hh => by cases hh⟩

theorem trace_run_inv (env : Env) (capacity : Int) (h31 : capacity < 2 ^ 31)
    (calls : List trace_call) (trace t : trace_t) (hinv : trace_inv capacity trace)
    (h : trace_run env trace calls = some t) : trace_inv capacity t := by
  induction calls generalizing trace with
  | nil =>
    cases h
    exact hinv
  | cons call rest ih =>
    unfold trace_run at h
    split at h
    · cases h
    · rename_i t1 hstep
      exact ih t1 (trace_step_inv env capacity h31 trace t1 call hinv hstep) h

/-- C21: after every sequence of `trace_capture_start`, `trace_duration_push`,
`trace_duration_pop` and `trace_capture_stop` calls on a recorder made by
`trace_create` with `0 ≤ capacity` (an `int`), each call returning, the capacity
is unchanged, `event_num` is the length of the events list and
`0 ≤ event_num ≤ capacity`.  In such a state a push while not started or at
capacity, and a pop while not started or on an empty list, return the recorder
unchanged; a push that is started and below capacity puts the new event at the
head and adds one to `event_num`, and the next pop removes exactly that event;
a pop on a non-empty list removes the head, the most recently pushed event
still on the list, and takes one from `event_num`.  A started push or pop does
return when the name fits its array and the formatted text fits the local
buffer and the capture text. -/
theorem trace_stack_invariant (env : Env) (heap : Nat) (capacity : Int)
    (calls : List trace_call) (t : trace_t) (h0 : 0 ≤ capacity) (h31 : capacity < 2 ^ 31)
    (hrun : trace_run env (trace_create heap capacity) calls = some t) :
    t.capacity = capacity ∧
    t.event_num = (t.events.length : Int) ∧
    0 ≤ t.event_num ∧ t.event_num ≤ t.capacity ∧
    (∀ name pid tid us, t.started = false ∨ t.event_num = t.capacity →
      trace_duration_push t name pid tid us = some t) ∧
    (∀ us, t.started = false ∨ t.events = [] → trace_duration_pop t us = some t) ∧
    (∀ name pid tid us t1, t.started = true → t.event_num < t.capacity →
      trace_duration_push t name pid tid us = some t1 →
      t1.events = { name := name, pid := pid, tid := tid } :: t.events ∧
      t1.event_num = t.event_num + 1 ∧
      ∀ us2 t2, trace_duration_pop t1 us2 = some t2 →
        t2.events = t.events ∧ t2.event_num = t.event_num) ∧
    (∀ us e rest t2, t.started = true → t.events = e :: rest →
      trace_duration_pop t us = some t2 →
      t2.events = rest ∧ t2.event_num = t.event_num - 1) ∧
    (∀ name pid tid us, t.started = true → t.event_num < t.capacity →
      name.length < sizeof_name →
      (duration_text "B" name pid tid us).length < sizeof_buffer →
      (∀ info, t.info = some info →
        info.length + (duration_text "B" name pid tid us).length < sizeof_info) →
      ∃ t1, trace_duration_push t name pid tid us = some t1) ∧
    (∀ us e rest, t.started = true → t.events = e :: rest →
      (duration_text "E" e.name e.pid e.tid us).length < sizeof_buffer →
      (∀ info, t.info = some info →
        info.length + (duration_text "E" e.name e.pid e.tid us).length < sizeof_info) →
      ∃ t2, trace_duration_pop t us = some t2) := by
  obtain ⟨hc, hn, hle, hinfo⟩ :=
    trace_run_inv env capacity h31 calls _ t (trace_create_inv heap capacity h0) hrun
  refine ⟨hc, hn, by omega, hle, ?_, ?_, ?_, ?_, ?_, ?_⟩
  · intro name pid tid us h
    refine trace_duration_push_idle t name pid tid us ?_
    rcases h with h | h
    · exact Or.inl h
    · exact Or.inr (by omega)
  · intro us h
    exact trace_duration_pop_idle t us h
  · intro name pid tid us t1 hs hlt hpush
    obtain ⟨info, ht1⟩ := trace_duration_push_eq t name pid tid us t1 hs hlt hpush
    have hsmall : to_int (t.event_num + 1) = t.event_num + 1 :=
      to_int_small _ (by omega) (by omega)
    have hs1 : t1.started = true := by rw [ht1]; exact hs
    have he1 : t1.events = { name := name, pid := pid, tid := tid } :: t.events := by rw [ht1]
    have hn1 : t1.event_num = t.event_num + 1 := by rw [ht1]; exact hsmall
    refine ⟨he1, hn1, ?_⟩
    intro us2 t2 hpop
    obtain ⟨info2, ht2⟩ := trace_duration_pop_eq t1 us2 _ t.events t2 hs1 he1 hpop
    have hback : to_int (t1.event_num - 1) = t1.event_num - 1 :=
      to_int_small _ (by omega) (by omega)
    refine ⟨by rw [ht2], ?_⟩
    rw [ht2]
    show to_int (t1.event_num - 1) = t.event_num
    rw [hback, hn1]
    omega
  · intro us e rest t2 hs he hpop
    obtain ⟨info, rfl⟩ := trace_duration_pop_eq t us e rest t2 hs he hpop
    rw [he, List.length_cons] at hn
    push_cast at hn
    exact ⟨rfl, to_int_small _ (by omega) (by omega)⟩
  · intro name pid tid us hs hlt hname htext hroom
    cases hi : t.info with
    | none => exact absurd hi (hinfo hs)
    | some info =>
      exact trace_duration_push_returns t name pid tid us info hs hlt hi hname htext
        (hroom info hi)
  · intro us e rest hs he htext hroom
    cases hi : t.info with
    | none => exact absurd hi (hinfo hs)
    | some info =>
      exact trace_duration_pop_returns t us e rest info hs he hi htext (hroom info hi)

set_option maxRecDepth 100000

/-- Witness for C21: the sample session (start, two pushes, one pop, stop) on
a recorder of capacity 2 ends with one event on the list. -/
theorem trace_stack_invariant_witness :
    ∃ t, trace_run sample_env (trace_create 1 2) sample_calls = some t ∧
      t.capacity = 2 ∧ t.event_num = (t.events.length : Int) ∧ t.events.length = 1 :=
  (fun (h : (trace_run sample_env (trace_create 1 2) sample_calls).isSome = true) =>
    (fun p => ⟨(trace_run sample_env (trace_create 1 2) sample_calls).get h,
        (Option.some_get h).symm, p.1, p.2.1, rfl⟩)
      (trace_stack_invariant sample_env 1 2 sample_calls
        ((trace_run sample_env (trace_create 1 2) sample_calls).get h)
        (by decide) (by decide) (Option.some_get h).symm))
    rfl

end CadetEngine
